import Mathlib

/-!
Verification development for the ws-server-render chat server.

The subject program is `chat-channel.cjs` (given as `src/unnamed/part_000`),
holding the `ChatChannel` class (triple-indexed user registry, message
pipeline stages, serial and timestamp counters, bounded history) and the
`WebSocketRelay` class (connection approval gating, forbidden-field input
sanitization, addressed and general broadcast), plus `server.js` which wires
one channel to one relay.

Modelling conventions, used throughout:
* JS `Map`s become association lists with `mapGet`/`mapSet`/`mapDel`.
* Thrown JS errors become an `Option ChatError` component threaded next to
  the state; mutations performed before the throw are kept, as in JS.
* `Math.random()`-based index draws become explicit `Nat` parameters
  (reduced modulo the list length, matching the support of
  `Math.floor(Math.random() * length)`).
* `Date.now()` becomes the `clock` field of the state, set by an explicit
  `tick` operation; timestamps are milliseconds as `Nat`.
* The pipeline engine (`Conveyor`, from `conveyor.cjs`, which is not part of
  the given sources) is modelled from the spec: stages are evaluated in
  registration order, a stage with a pattern runs only when every pattern
  key is present with the given value (the wildcard value meaning "present
  and non-empty"), and a handler invoking the terminate control stops the
  chain.  The fixed stage list registered by `initializeChatProcessor` is
  therefore unfolded into ordered conditionals in `receive` below.
* Messages synthesized internally by handlers (`channel.receive({...})`
  calls made from inside stages) carry no `_event`, `request` or `recipient`
  field matching any of stages 1-7, so processing them runs exactly the
  patternless tail stages (timestamp, sender erasure, persistence,
  broadcast); `receiveSimple` is that unfolding.
* `sent`, `bcast`, `serialLog` and `timeLog` are ghost logs recording each
  transport send, each message handed to `relay.broadcast`, each serial
  number assigned, and each timestamp assigned; no behavior reads them.
-/

namespace WsChat

/-! ## Association lists modelling JS Maps -/

/-- Lookup of the first binding of a key (JS `Map.get`, with `none` for
`undefined`). -/
def mapGet {α β : Type} [DecidableEq α] : List (α × β) → α → Option β
  | [], _ => none
  | (k, v) :: rest, a => if a = k then some v else mapGet rest a

/-- JS `Map.set`: replace the binding in place if the key is present,
otherwise append it at the end (insertion order). -/
def mapSet {α β : Type} [DecidableEq α] : List (α × β) → α → β → List (α × β)
  | [], a, b => [(a, b)]
  | (k, v) :: rest, a, b =>
    if a = k then (a, b) :: rest else (k, v) :: mapSet rest a b

/-- JS `Map.delete`: remove the first binding of the key. -/
def mapDel {α β : Type} [DecidableEq α] : List (α × β) → α → List (α × β)
  | [], _ => []
  | (k, v) :: rest, a => if a = k then rest else (k, v) :: mapDel rest a

/-- The keys of the association list are pairwise distinct; JS `Map`s always
satisfy this and all reachable registry states preserve it. -/
def NodupKeys {α β : Type} (m : List (α × β)) : Prop := (m.map Prod.fst).Nodup

/-! ## String helpers -/

/-- Model of `String.prototype.toLowerCase()`: character-wise lowering.
ASCII case mapping is exact; exotic locale-specific multi-character mappings
are out of scope.  All uses in the program only need that it is a fixed
function applied consistently to registry keys. -/
def jsLower (s : String) : String := ⟨s.data.map Char.toLower⟩

/-- Model of `s.slice(0, n)` for a string: the first `n` characters. -/
def jsTake (s : String) (n : Nat) : String := ⟨s.data.take n⟩

/-- Name truncation used by the rename and identify stages:
`if (m.text.length > maxNameLength) m.text = m.text.slice(0, maxNameLength) + ...`. -/
def truncName (maxLen : Nat) (s : String) : String :=
  if s.length > maxLen then jsTake s maxLen ++ "..." else s

/-- The decimal digit character for `n < 10`, as produced by JS number to
string conversion. -/
def digitCh (n : Nat) : Char := Char.ofNat (48 + n)

/-- Decimal digit list of a natural number, most significant first; models
the JS `ToString` of the integer counters used in name probing. -/
def natDigits (n : Nat) : List Char :=
  if _h : n < 10 then [digitCh n]
  else natDigits (n / 10) ++ [digitCh (n % 10)]
decreasing_by exact Nat.div_lt_self (by omega) (by omega)

/-- Decimal numeral of a natural number (JS `'' + count`). -/
def natStr (n : Nat) : String := ⟨natDigits n⟩

/-- Proof device: the value a digit list denotes, used to show that decimal
numerals are injective. -/
def decodeDigits (l : List Char) : Nat :=
  l.foldl (fun a c => 10 * a + (c.toNat - 48)) 0

/-! ## The user registry (`ChatChannel.users` and its methods) -/

/-- One connected identity (`class ChatUser`).  `sessionId` is optional
because `m.sid` may be absent, in which case the constructor stores `null`.
The display name is always a string when created by the channel. -/
structure ChatUser where
  socketId : Int
  sessionId : Option String
  name : String
deriving DecidableEq

/-- The `lowerCaseName` getter of `ChatUser`. -/
def ChatUser.lowerCaseName (u : ChatUser) : String := jsLower u.name

/-- The three indexes of `ChatChannel.users`. -/
structure Users where
  lowerCaseNames : List (String × ChatUser)
  sessions : List (Option String × ChatUser)
  sockets : List (Int × ChatUser)
deriving DecidableEq

def emptyUsers : Users := ⟨[], [], []⟩

/-- A lookup trait as passed to `getUser`: exactly one of the three keys. -/
inductive Trait where
  | byName (name : String)
  | bySession (sid : Option String)
  | bySocket (socketId : Int)
deriving DecidableEq

/-- Errors thrown by the channel code.  The three conflicts are the
`throw new Error(...)` cases of `createUser`; `typeError` stands for the JS
`TypeError` raised by a property access on `undefined`. -/
inductive ChatError where
  | conflictName (name : String)
  | conflictSession
  | conflictSocket
  | typeError
deriving DecidableEq

/-- `ChatChannel.getUser(trait)`. -/
def getUser (us : Users) : Trait → Option ChatUser
  | .byName n => mapGet us.lowerCaseNames (jsLower n)
  | .bySession sid => mapGet us.sessions sid
  | .bySocket i => mapGet us.sockets i

/-- `ChatChannel.createUser(properties)`: fail on any of the three key
collisions (checked in source order), else insert into all three indexes. -/
def createUser (us : Users) (p : ChatUser) : Except ChatError Users :=
  if (mapGet us.lowerCaseNames (jsLower p.name)).isSome then
    .error (.conflictName p.name)
  else if (mapGet us.sessions p.sessionId).isSome then .error .conflictSession
  else if (mapGet us.sockets p.socketId).isSome then .error .conflictSocket
  else .ok { lowerCaseNames := mapSet us.lowerCaseNames p.lowerCaseName p,
             sessions := mapSet us.sessions p.sessionId p,
             sockets := mapSet us.sockets p.socketId p }

/-- `ChatChannel.deleteUser(trait)`: look the user up, remove it from all
three indexes; return `false` (state unchanged, log only) when absent.
When the source passes a `ChatUser` object as the trait, `getUser` sees its
`name` property first, which is modelled by passing `Trait.byName u.name`. -/
def deleteUser (us : Users) (t : Trait) : Bool × Users :=
  match getUser us t with
  | some u =>
    (true, { lowerCaseNames := mapDel us.lowerCaseNames u.lowerCaseName,
             sessions := mapDel us.sessions u.sessionId,
             sockets := mapDel us.sockets u.socketId })
  | none => (false, us)

/-- A field patch as passed to `updateUser` (`Object.assign(u, what)`):
present fields overwrite the user record. -/
structure Patch where
  name : Option String := none
  sessionId : Option (Option String) := none
  socketId : Option Int := none
deriving DecidableEq

def applyPatch (u : ChatUser) (p : Patch) : ChatUser :=
  { socketId := p.socketId.getD u.socketId,
    sessionId := p.sessionId.getD u.sessionId,
    name := p.name.getD u.name }

/-- `ChatChannel.updateUser(who, what)`: find, delete (the source passes the
user object, hence lookup by name), patch, recreate.  A conflict thrown by
the inner `createUser` propagates after the deletion already happened, so
the deleted state is kept next to the error, as in JS. -/
def updateUser (us : Users) (who : Trait) (what : Patch) :
    Users × Option ChatError :=
  match getUser us who with
  | none => (us, none)
  | some u =>
    let us1 := (deleteUser us (.byName u.name)).2
    match createUser us1 (applyPatch u what) with
    | .ok us2 => (us2, none)
    | .error e => (us1, some e)

/-- One registry operation, for quantifying over all operation sequences. -/
inductive RegOp where
  | create (p : ChatUser)
  | delete (t : Trait)
  | update (t : Trait) (patch : Patch)

/-- Apply one registry operation; a failed `createUser` leaves the registry
unchanged (the throw happens before any insertion). -/
def applyRegOp (us : Users) : RegOp → Users
  | .create p =>
    match createUser us p with
    | .ok us2 => us2
    | .error _ => us
  | .delete t => (deleteUser us t).2
  | .update t patch => (updateUser us t patch).1

def runReg (ops : List RegOp) : Users := ops.foldl applyRegOp emptyUsers

/-- Membership agreement of the three indexes: every binding of any index
is stored under the user record's own key and the same record is found in
the other two indexes under its own keys. -/
def Agree (us : Users) : Prop :=
  (∀ k v, mapGet us.lowerCaseNames k = some v →
     k = v.lowerCaseName ∧ mapGet us.sessions v.sessionId = some v ∧
     mapGet us.sockets v.socketId = some v) ∧
  (∀ k v, mapGet us.sessions k = some v →
     k = v.sessionId ∧ mapGet us.lowerCaseNames v.lowerCaseName = some v ∧
     mapGet us.sockets v.socketId = some v) ∧
  (∀ k v, mapGet us.sockets k = some v →
     k = v.socketId ∧ mapGet us.lowerCaseNames v.lowerCaseName = some v ∧
     mapGet us.sessions v.sessionId = some v)

/-- Full registry well-formedness: agreement plus distinct keys per index. -/
def UsersWF (us : Users) : Prop :=
  Agree us ∧ NodupKeys us.lowerCaseNames ∧ NodupKeys us.sessions ∧
    NodupKeys us.sockets

/-! ## Random name generation (`generateRandomName`) -/

def adjectives : List String :=
  ["Persnickety", "Spectacular", "Winsome", "Beguiling", "Gregarious",
   "Modest", "Vaporous", "Harmonious", "Adamant", "Adroit", "Frolicsome",
   "Munificent", "Voluble"]

def animals : List String :=
  ["Aardvark", "Anteater", "Armadillo", "Badger", "Coatimundi", "Cormorant",
   "Octopus", "Crocodile", "Gecko", "Parakeet", "Shark", "Stork", "Toucan",
   "Ostrich", "Ocelot", "Pangolin", "Quokka"]

/-- The numeric-suffix probe of `generateRandomName`: try `base-k`,
`base-(k+1)`, ... until a free name is found.  The JS loop has no bound; the
`fuel` parameter (instantiated with one more than the registry size, which
the pigeonhole argument below proves sufficient) only makes the recursion
structural, and is never exhausted on the instantiation used. -/
def probeFrom (us : Users) (base : String) : Nat → Nat → String
  | k, 0 => base ++ "-" ++ natStr k
  | k, fuel + 1 =>
    if (getUser us (.byName (base ++ "-" ++ natStr k))).isSome then
      probeFrom us base (k + 1) fuel
    else base ++ "-" ++ natStr k

/-- `generateRandomName(channel)`: a random animal; if taken, a random
adjective prefix; if still taken, the numeric-suffix probe starting at 2.
`ai`/`aj` stand for the two `Math.floor(Math.random() * length)` draws. -/
def generateRandomName (us : Users) (ai aj : Nat) : String :=
  let animal := animals.getD (ai % animals.length) ""
  if (getUser us (.byName animal)).isSome then
    let name := adjectives.getD (aj % adjectives.length) "" ++ " " ++ animal
    if (getUser us (.byName name)).isSome then
      probeFrom us name 2 (us.lowerCaseNames.length + 1)
    else name
  else animal

/-! ## JSON values and the relay input sanitizer -/

/-- A parsed JSON value (`JSON.parse` output).  Numbers are modelled as
integers; no claim depends on fractional numeric payloads. -/
inductive Json where
  | null
  | bool (b : Bool)
  | num (n : Int)
  | str (s : String)
  | arr (elems : List Json)
  | obj (fields : List (String × Json))

/-- JS `typeof x === 'object'`: true for objects, arrays and `null`. -/
def Json.isObjLike : Json → Bool
  | .null | .arr _ | .obj _ => true
  | _ => false

/-- First character is an underscore: the `/^_/.test(key)` reserved-key
test. -/
def underscorePrefixed (s : String) : Bool :=
  match s.data with
  | c :: _ => c == '_'
  | [] => false

/-- The recursion worker of `containsForbiddenFields`, with an explicit
structural counter `fuel` kept equal to `11 - recursionDepth`: the source
recursion never descends past depth 10, because the depth guard returns
`true` first, so the zero-fuel fallback (`true`, agreeing with the guard at
the depths where it is reached) changes nothing; `cff_obj`/`cff_arr`/
`cff_top` below restate the function exactly as the source writes it. -/
def cffAux : Nat → Json → Nat → Bool
  | 0, _, _ => true
  | fuel + 1, .obj kvs, d =>
    if d > 9 then true
    else kvs.any (fun kv =>
      underscorePrefixed kv.1 || (kv.2.isObjLike && cffAux fuel kv.2 (d + 1)))
  | fuel + 1, .arr es, d =>
    if d > 9 then true
    else es.any (fun v => v.isObjLike && cffAux fuel v (d + 1))
  | _ + 1, _, d => if d > 9 then true else false

/-- `containsForbiddenFields(message, recursionDepth)`: reject on recursion
depth above 9, then scan own enumerable keys in order; an
underscore-prefixed key rejects, and object-typed values (including `null`
and arrays) are scanned recursively.  `for...in` over an array yields its
index keys, which never start with an underscore, so only the element
values are scanned there; the early `return true` of the loop is the
`List.any` disjunction. -/
def containsForbiddenFields (j : Json) (d : Nat) : Bool := cffAux (11 - d) j d

/-- There is an underscore-prefixed key on an object sitting within `n`
nesting levels of the value (so, for `n = 10`, on an object the sanitizer
visits with `recursionDepth` at most 9: within the recursion limit). -/
def resKeyWithin : Nat → Json → Bool
  | 0, _ => false
  | n + 1, .obj kvs =>
    kvs.any (fun kv => underscorePrefixed kv.1 || resKeyWithin n kv.2)
  | n + 1, .arr es => es.any (fun v => resKeyWithin n v)
  | _ + 1, _ => false

/-- The value nests object-like values (objects, arrays, `null` excluded
since it has no children) deeper than `n` levels: a chain of `n + 1` nested
objects/arrays exists, each the value of a field or element of the
previous. -/
def deeperThan : Nat → Json → Bool
  | 0, j => j.isObjLike
  | n + 1, .obj kvs => kvs.any (fun kv => deeperThan n kv.2)
  | n + 1, .arr es => es.any (fun v => deeperThan n v)
  | _ + 1, _ => false

/-! ## Messages -/

/-- An addressing value of the outbound `to` field: a single connection id
or a list (the relay wraps a single id in an array before matching). -/
inductive ToAddr where
  | one (i : Int)
  | many (l : List Int)
deriving DecidableEq

/-- Membership test `m.to.includes(info.id)` after array wrapping. -/
def ToAddr.holds (t : ToAddr) (i : Int) : Bool :=
  match t with
  | .one j => i == j
  | .many l => l.contains i

/-- The payloads of the client-directed `_set` instruction `value` field:
a name, a serial number, or a list of names. -/
inductive SetValue where
  | str (s : String)
  | nat (n : Nat)
  | strList (l : List String)
deriving DecidableEq

/-- A message as stored in history: the fields the channel ever reads or
writes.  Underscore-prefixed JS keys appear without the prefix (`sender` is
`_sender`, `event` is `_event`, `remember` is `_remember`, `setKey` is
`_set`, `serial` is `_serial`, `time` is `_time`).  Absent JS fields are
`none`. -/
structure Record where
  text : Option String := none
  name : Option String := none
  toAddr : Option ToAddr := none
  recipient : Option String := none
  request : Option String := none
  first : Option Nat := none
  last : Option Nat := none
  sid : Option String := none
  setKey : Option String := none
  value : Option SetValue := none
  sender : Option Int := none
  event : Option String := none
  remember : Option Bool := none
  serial : Option Nat := none
  time : Option Nat := none
deriving DecidableEq

/-- A message in flight: a record plus the `history` reply payload (kept as
a separate type so that history storage stays non-recursive; messages that
get persisted never carry a `history` field in any claim scenario). -/
structure Msg where
  text : Option String := none
  name : Option String := none
  toAddr : Option ToAddr := none
  recipient : Option String := none
  request : Option String := none
  first : Option Nat := none
  last : Option Nat := none
  sid : Option String := none
  setKey : Option String := none
  value : Option SetValue := none
  sender : Option Int := none
  event : Option String := none
  remember : Option Bool := none
  serial : Option Nat := none
  time : Option Nat := none
  history : Option (List Record) := none
deriving DecidableEq

/-- Forget the `history` payload (identity on every message the channel
ever persists). -/
def Msg.toRecord (m : Msg) : Record :=
  { text := m.text, name := m.name, toAddr := m.toAddr, recipient := m.recipient,
    request := m.request, first := m.first, last := m.last, sid := m.sid,
    setKey := m.setKey, value := m.value, sender := m.sender,
    event := m.event, remember := m.remember, serial := m.serial,
    time := m.time }

/-! ## Relay connection state -/

/-- Per-connection relay record (`socketInfo` entry): assigned id and the
approval flag (`canListen`, false until `approveListener`). -/
structure ConnInfo where
  id : Int
  canListen : Bool
deriving DecidableEq

/-- `approveListener(socketId)`: set `canListen` on the first connection
with a matching id (the loop breaks at the first match). -/
def approveConns : List ConnInfo → Int → List ConnInfo
  | [], _ => []
  | c :: rest, i =>
    if c.id = i then { c with canListen := true } :: rest
    else c :: approveConns rest i

/-- The connections `WebSocketRelay.broadcast(m)` sends the encoded message
to, in socket iteration order: with a `to` field, the approved connections
whose id is listed; otherwise every approved connection.  Unapproved
connections are skipped in both paths. -/
def broadcastTargets (conns : List ConnInfo) (m : Msg) : List ConnInfo :=
  match m.toAddr with
  | some t => conns.filter (fun c => c.canListen && t.holds c.id)
  | none => conns.filter (fun c => c.canListen)

/-- The connection ids receiving the broadcast. -/
def broadcastRecipients (conns : List ConnInfo) (m : Msg) : List Int :=
  (broadcastTargets conns m).map (·.id)

/-! ## The combined channel and relay state -/

/-- The mutable state of one `ChatChannel` wired to one `WebSocketRelay`,
plus ghost observation logs (`sent`, `bcast`, `serialLog`, `timeLog`) and
the modelled nondeterminism sources (`clock` for `Date.now()`, `rands` for
the random draws of `generateRandomName`, consumed per identify request). -/
structure SysState where
  users : Users
  lastSerial : Nat
  lastTimestamp : Nat
  maxHistory : Nat
  maxNameLength : Nat
  history : List Record
  conns : List ConnInfo
  nextConnId : Int
  clock : Nat
  rands : List (Nat × Nat)
  sent : List (Int × Msg)
  bcast : List Msg
  serialLog : List Nat
  timeLog : List Nat
deriving DecidableEq

/-- The initial state of a fresh channel and relay pair. -/
def initSys (maxH maxN : Nat) (rands : List (Nat × Nat)) : SysState :=
  { users := emptyUsers, lastSerial := 0, lastTimestamp := 0,
    maxHistory := maxH, maxNameLength := maxN, history := [], conns := [],
    nextConnId := 0, clock := 0, rands := rands, sent := [], bcast := [],
    serialLog := [], timeLog := [] }

/-- The timestamp computation of the timestamp stage:
`100 * parseInt(Date.now() / 100)`, bumped to `lastTimestamp + 1` when not
strictly above the previous timestamp. -/
def nextStamp (lastTimestamp now : Nat) : Nat :=
  let timestamp := 100 * (now / 100)
  if timestamp ≤ lastTimestamp then lastTimestamp + 1 else timestamp

/-- The timestamps assigned to a sequence of messages arriving at the given
`Date.now()` values, starting from a previous `lastTimestamp`. -/
def stampRun (lastTimestamp : Nat) : List Nat → List Nat
  | [] => []
  | now :: rest =>
    let t := nextStamp lastTimestamp now
    t :: stampRun t rest

/-- Number of records retained by a trim:
`history.slice(-maxHistory * 0.7)` keeps the last `⌊7 M / 10⌋` records.
The source computes `-maxHistory * 0.7` in double precision and
`Array.prototype.slice` truncates it toward zero; for the cap values used in
the claims this agrees with `⌊7 M / 10⌋` exactly (`M = 50` gives 35,
`M = 3` gives 2).  It does not agree for every conceivable cap (`90 * 0.7`
rounds to `62.99999999999999` in doubles, truncating to 62, and a cap of at
most 1 truncates to `-0`, which `slice` treats as keeping everything); no
theorem below is stated at such caps. -/
def keepCount (maxH : Nat) : Nat := 7 * maxH / 10

/-- The trim run after every successful append: once the length exceeds the
cap, retain only the trailing `keepCount` records. -/
def enforceCap (st : SysState) : SysState :=
  if st.history.length > st.maxHistory then
    { st with
      history := st.history.drop (st.history.length - keepCount st.maxHistory) }
  else st

/-! ## The pipeline stages -/

/-- Stages 8-11 of the pipeline, which carry no pattern or whose pattern is
the internal `_remember` flag: timestamp assignment, sender erasure,
persistence (serial assignment, history append, cap enforcement) and the
final broadcast hand-off.  Every message that no earlier stage terminated
flows through these. -/
def tailStages (st : SysState) (m : Msg) : SysState :=
  let t := nextStamp st.lastTimestamp st.clock
  let st1 := { st with lastTimestamp := t, timeLog := st.timeLog ++ [t] }
  let m1 := { m with time := some t, sender := none }
  -- the pattern test reads the _remember field, which the two preceding
  -- stages do not touch, so it is checked on the incoming message
  let step2 : SysState × Msg :=
    if m.remember = some true then
      let m2 := { m1 with remember := none,
                          serial := some (st1.lastSerial + 1) }
      let st2 := { st1 with
        lastSerial := st1.lastSerial + 1,
        serialLog := st1.serialLog ++ [st1.lastSerial + 1],
        history := st1.history ++ [m2.toRecord] }
      (enforceCap st2, m2)
    else (st1, m1)
  let st3 := step2.1
  let m3 := step2.2
  { st3 with
    sent := st3.sent ++ (broadcastRecipients st3.conns m3).map (fun i => (i, m3)),
    bcast := st3.bcast ++ [m3] }

/-- Processing of a message synthesized internally by a stage handler: such
messages match none of the patterned stages 1-7, so `channel.receive` on
them reduces to the sender default followed by the tail stages. -/
def receiveSimple (st : SysState) (m : Msg) : SysState :=
  tailStages st { m with sender := some (m.sender.getD (-1)) }

/-- `ChatChannel.broadcastUserList()`: synthesize a `_set users` message
carrying the session-ordered name list. -/
def broadcastUserList (st : SysState) : SysState :=
  receiveSimple st
    { setKey := some "users",
      value := some (.strList (st.users.sessions.map (fun p => p.2.name))) }

/-- The disconnect stage handler: delete the sender's user if registered,
announce the disconnect as a history-worthy broadcast, re-broadcast the
user list. -/
def disconnectStage (st : SysState) (m : Msg) : SysState :=
  let found := getUser st.users (.bySocket (m.sender.getD (-1)))
  let st1 :=
    match found with
    | some u => { st with users := (deleteUser st.users (.byName u.name)).2 }
    | none => st
  let uname :=
    match found with
    | some u => u.name
    | none => "Unknown user"
  let st2 := receiveSimple st1
    { text := some (uname ++ " disconnected."), remember := some true }
  broadcastUserList st2

/-- The rename stage handler.  Accessing `m.text.length`, or a property of
an absent `currentRecord`, raises a `TypeError` in JS, which the model
returns as an error next to the state reached so far. -/
def renameStage (st : SysState) (m : Msg) : SysState × Option ChatError :=
  match m.text with
  | none => (st, some .typeError)
  | some t0 =>
    let t := truncName st.maxNameLength t0
    let sndr := m.sender.getD (-1)
    let currentRecord := getUser st.users (.bySocket sndr)
    match getUser st.users (.byName t) with
    | none =>
      match currentRecord with
      | none => (st, some .typeError)
      | some cr =>
        let st1 := receiveSimple st
          { text := some (cr.name ++ " renamed to " ++ t),
            remember := some true }
        let st2 := receiveSimple st1
          { setKey := some "rename", value := some (.strList [cr.name, t]) }
        let upd := updateUser st2.users (.bySocket sndr) { name := some t }
        let st3 := { st2 with users := upd.1 }
        match upd.2 with
        | some e => (st3, some e)
        | none => (broadcastUserList st3, none)
    | some nameHolder =>
      match currentRecord with
      | none => (st, some .typeError)
      | some cr =>
        if nameHolder.sessionId = cr.sessionId then
          (receiveSimple st
            { toAddr := some (.one sndr),
              text := some ("You are already named " ++ t ++ ".") }, none)
        else
          let st1 := receiveSimple st
            { text := some ("Name already in use. (" ++ t ++ ")"),
              toAddr := some (.one sndr) }
          (receiveSimple st1
            { toAddr := some (.one sndr), setKey := some "name",
              value := some (.str cr.name) }, none)

/-- The tail of the identify stage after a successful `createUser`: the
source looks the fresh user up again by socket id for the `_set name` value
and the joined announcement (the registry is unchanged between the lookups,
so the same record is found each time). -/
def identifyFinish (st : SysState) (sndr : Int) : SysState × Option ChatError :=
  match getUser st.users (.bySocket sndr) with
  | none => (st, some .typeError)
  | some w =>
    let st1 := receiveSimple st
      { toAddr := some (.one sndr), setKey := some "name",
        value := some (.str w.name) }
    let st2 := receiveSimple st1
      { toAddr := some (.one sndr), setKey := some "lastSeen",
        value := some (.nat st1.lastSerial) }
    let st3 := receiveSimple st2
      { text := some (w.name ++ " joined."), remember := some true }
    (broadcastUserList st3, none)

/-- The head of the random-draw stream (one pair of draws is consumed per
fallback name generation). -/
def nextDraw (rands : List (Nat × Nat)) : Nat × Nat :=
  match rands with
  | [] => (0, 0)
  | d :: _ => d

/-- The identify stage handler: grant listening approval first (before any
outcome is known, and before the `m.name.length` access that throws when
the name is absent), truncate the proposed name, create the user under the
proposed name, or under a generated one when the proposal is taken or
empty, then inform the client and announce.  The registry read by the
taken-or-empty test and by `createUser` is unchanged by the approval, so it
is written `st.users` throughout. -/
def identifyStage (st : SysState) (m : Msg) : SysState × Option ChatError :=
  match m.name with
  | none =>
    ({ st with conns := approveConns st.conns (m.sender.getD (-1)) },
     some .typeError)
  | some n0 =>
    if (getUser st.users
          (.byName (truncName st.maxNameLength n0))).isSome ||
        truncName st.maxNameLength n0 = "" then
      match createUser st.users
          { socketId := m.sender.getD (-1), sessionId := m.sid,
            name := generateRandomName st.users (nextDraw st.rands).1
              (nextDraw st.rands).2 } with
      | .error e =>
        ({ st with conns := approveConns st.conns (m.sender.getD (-1)),
                   rands := st.rands.tail }, some e)
      | .ok us =>
        identifyFinish
          { st with conns := approveConns st.conns (m.sender.getD (-1)),
                    rands := st.rands.tail, users := us }
          (m.sender.getD (-1))
    else
      match createUser st.users
          { socketId := m.sender.getD (-1), sessionId := m.sid,
            name := truncName st.maxNameLength n0 } with
      | .error e =>
        ({ st with conns := approveConns st.conns (m.sender.getD (-1)) },
         some e)
      | .ok us =>
        identifyFinish
          { st with conns := approveConns st.conns (m.sender.getD (-1)),
                    users := us }
          (m.sender.getD (-1))

/-- `ChatChannel.retrieve(first, last)`: the records whose serial lies in
the inclusive range. -/
def retrieve (st : SysState) (first last : Nat) : List Record :=
  st.history.filter
    (fun h => h.serial.any (fun s => decide (first ≤ s) && decide (s ≤ last)))

/-- The history stage handler: resolve bounds (defaulting to the whole
log), and reply privately only when the retrieved set is non-empty. -/
def historyStage (st : SysState) (m : Msg) : SysState :=
  let first := m.first.getD 0
  let last := m.last.getD st.lastSerial
  let records := retrieve st first last
  if records.length ≠ 0 then
    receiveSimple st
      { toAddr := some (.one (m.sender.getD (-1))), history := some records }
  else st

/-- The direct-message stage handler: resolve the recipient by name, reply
"Recipient not found." on a miss; otherwise deliver privately to the
recipient and, unless sender and recipient share the connection, send an
acknowledgment copy to the sender. -/
def directStage (st : SysState) (m : Msg) : SysState × Option ChatError :=
  let sndr := m.sender.getD (-1)
  match getUser st.users (.byName (m.recipient.getD "")) with
  | none =>
    (receiveSimple st
      { toAddr := some (.one sndr), text := some "Recipient not found." }, none)
  | some whom =>
    match getUser st.users (.bySocket sndr) with
    | none => (st, some .typeError)
    | some sendUser =>
      let label := sendUser.name ++ " → " ++ whom.name
      let st1 := receiveSimple st
        { toAddr := some (.one whom.socketId), name := some label, text := m.text }
      if sndr ≠ whom.socketId then
        (receiveSimple st1
          { toAddr := some (.one sndr), name := some label, text := m.text },
         none)
      else (st1, none)

/-- The transmit enrichment stage: attach the sender's display name and
mark the message for persistence; a lookup miss (unidentified sender) is a
JS `TypeError` on `.name`. -/
def transmitEnrich (st : SysState) (m : Msg) : Except ChatError Msg :=
  match getUser st.users (.bySocket (m.sender.getD (-1))) with
  | none => .error .typeError
  | some u => .ok { m with name := some u.name, remember := some true }

/-- The wildcard pattern value of the direct-message stage
(`{ recipient: '*' }`).  Modelled from the spec: the engine is in
`conveyor.cjs`, which is not among the given sources; the spec defines the
wildcard as "key present, any non-empty value". -/
def wildcardPresent (v : Option String) : Bool :=
  match v with
  | some s => decide (s ≠ "")
  | none => false

/-- `ChatChannel.receive(message)` followed by the pipeline dispatch.
Modelled from the spec: the `Conveyor` engine of `conveyor.cjs` is not in
the given sources; per the spec its stages run in registration order, a
patterned stage runs only when the message carries every pattern field with
the given value, a terminating handler stops the chain, and the engine
itself catches nothing, so a handler throw aborts the chain and propagates
to the caller (returned here as the second component, with the state
mutated so far kept).  The registered stage order is that of
`initializeChatProcessor`. -/
def receive (st : SysState) (m0 : Msg) : SysState × Option ChatError :=
  let m := { m0 with sender := some (m0.sender.getD (-1)) }
  if m.event = some "connect" then (st, none)
  else if m.event = some "disconnect" then (disconnectStage st m, none)
  else if m.request = some "rename" then renameStage st m
  else if m.request = some "identify" then identifyStage st m
  else if m.request = some "history" then (historyStage st m, none)
  else if wildcardPresent m.recipient then directStage st m
  else if m.event = some "transmit" then
    match transmitEnrich st m with
    | .error e => (st, some e)
    | .ok m2 => (tailStages st m2, none)
  else (tailStages st m, none)

/-! ## The relay frame handler -/

/-- JS `String(x)` on the non-object values that can come out of
`JSON.parse` (objects, arrays and `null` are never coerced, since
`typeof` calls them objects). -/
def jsToString : Json → String
  | .str s => s
  | .num n => n.repr
  | .bool true => "true"
  | .bool false => "false"
  | .null => "null"
  | .arr _ => ""
  | .obj _ => ""

/-- The non-object coercion of the frame handler:
`if (typeof m !== 'object') m = { text: String(m) }`. -/
def framePrep (j : Json) : Json :=
  if j.isObjLike then j else .obj [("text", .str (jsToString j))]

def jLookup (kvs : List (String × Json)) (k : String) : Option Json :=
  mapGet kvs k

def jStr : Option Json → Option String
  | some (.str s) => some s
  | _ => none

def jNat : Option Json → Option Nat
  | some (.num n) => if 0 ≤ n then some n.toNat else none
  | _ => none

/-- Extraction of a client-supplied `to` field: a number, an array (keeping
its numeric entries, since only numbers can match connection ids), or any
other present value, which matches no id. -/
def jTo : Option Json → Option ToAddr
  | none => none
  | some (.num n) => some (.one n)
  | some (.arr es) =>
    some (.many (es.filterMap (fun e =>
      match e with
      | .num n => some n
      | _ => none)))
  | some _ => some (.many [])

/-- The channel-relevant fields of a sanitized client payload.  A payload
that passed `containsForbiddenFields` has no underscore-prefixed keys, so
the reserved fields are absent.  Fields of unexpected runtime type are
dropped (`none`); no claim exercises the JS coercion corners on them. -/
def jsonToMsg (j : Json) : Msg :=
  match j with
  | .obj kvs =>
    { text := jStr (jLookup kvs "text"), name := jStr (jLookup kvs "name"),
      recipient := jStr (jLookup kvs "recipient"),
      request := jStr (jLookup kvs "request"),
      sid := jStr (jLookup kvs "sid"), first := jNat (jLookup kvs "first"),
      last := jNat (jLookup kvs "last"), toAddr := jTo (jLookup kvs "to") }
  | _ => {}

/-- The per-frame message handler of `receiveConnection`: coerce non-object
payloads, drop the frame when `containsForbiddenFields` rejects it, else
stamp `_sender` and `_event: transmit` and hand to `channel.receive`; the
surrounding `try` swallows every thrown error (a `null` frame throws on the
`_sender` assignment itself), keeping the state reached so far. -/
def handleFrame (st : SysState) (id : Int) (j : Json) : SysState :=
  let j2 := framePrep j
  if containsForbiddenFields j2 0 then st
  else
    match j2 with
    | .null => st
    | _ =>
      let m := { jsonToMsg j2 with sender := some id,
                                   event := some "transmit" }
      (receive st m).1

/-! ## System-level operation sequences -/

/-- One externally triggered event of the channel/relay pair: an inbound
frame, a new connection, a connection close, an internally originated
`channel.receive` call (as `server.js` performs), or a clock change. -/
inductive SysOp where
  | frame (id : Int) (j : Json)
  | newConn
  | closeConn (id : Int)
  | recv (m : Msg)
  | tick (n : Nat)

/-- Apply one system operation.  `newConn` follows `receiveConnection`
(fresh id, unapproved, synthesized `connect` event); `closeConn` follows the
socket close handler (synthesized `disconnect` event, then release of the
tracking state). -/
def sysStep (st : SysState) : SysOp → SysState
  | .frame id j => handleFrame st id j
  | .newConn =>
    let id := st.nextConnId
    let st1 := { st with
      conns := st.conns ++ [{ id := id, canListen := false }],
      nextConnId := id + 1 }
    (receive st1 { sender := some id, event := some "connect" }).1
  | .closeConn id =>
    let st1 := (receive st { sender := some id, event := some "disconnect" }).1
    { st1 with conns := st1.conns.filter (fun c => c.id != id) }
  | .recv m => (receive st m).1
  | .tick n => { st with clock := n }

/-- Run a sequence of system operations from a fresh state. -/
def runSys (maxH maxN : Nat) (rands : List (Nat × Nat))
    (ops : List SysOp) : SysState :=
  ops.foldl sysStep (initSys maxH maxN rands)

/-! ## Standalone relay reachability model (for the approval gate) -/

/-- The relay operations that touch connection records: registration,
approval, close. -/
inductive RelayOp where
  | receiveConn
  | approveListener (id : Int)
  | closeConn (id : Int)
deriving DecidableEq

structure RelayState where
  conns : List ConnInfo
  nextId : Int
deriving DecidableEq

/-- `receiveConnection` initializes a fresh id as unapproved;
`approveListener` flips `canListen`; close releases the record. -/
def relayStep (st : RelayState) : RelayOp → RelayState
  | .receiveConn =>
    { conns := st.conns ++ [{ id := st.nextId, canListen := false }],
      nextId := st.nextId + 1 }
  | .approveListener i => { st with conns := approveConns st.conns i }
  | .closeConn i => { st with conns := st.conns.filter (fun c => c.id != i) }

def runRelay (ops : List RelayOp) : RelayState :=
  ops.foldl relayStep { conns := [], nextId := 0 }

/-! ## Ghost-log invariants -/

/-- Serial-number bookkeeping: the ghost log of assigned serials is exactly
`1, 2, ..., lastSerial` in order (each serial assigned exactly once, by
pre-increment, never reused), and the retained history carries strictly
increasing serials bounded by the counter. -/
def SerialOK (st : SysState) : Prop :=
  st.serialLog = List.range' 1 st.serialLog.length ∧
  st.lastSerial = st.serialLog.length ∧
  List.Chain' (· < ·) (st.history.map (fun r => r.serial.getD 0)) ∧
  ∀ r ∈ st.history, ∃ s1, r.serial = some s1 ∧ 1 ≤ s1 ∧ s1 ≤ st.lastSerial

/-- Timestamp bookkeeping: the ghost log of assigned timestamps is strictly
increasing and bounded by the stored `lastTimestamp`. -/
def TimeOK (st : SysState) : Prop :=
  List.Chain' (· < ·) st.timeLog ∧ ∀ t ∈ st.timeLog, t ≤ st.lastTimestamp

def SerialTimeOK (st : SysState) : Prop := SerialOK st ∧ TimeOK st

/-! ## Concrete scenario data used by witnesses and counterexamples -/

/-- A registered user: socket 0, session `s1`, display name `Alice`. -/
def aliceUser : ChatUser :=
  { socketId := 0, sessionId := some "s1", name := "Alice" }

/-- A registry holding exactly `aliceUser`, stored under its three keys. -/
def usersAlice : Users :=
  { lowerCaseNames := [("alice", aliceUser)],
    sessions := [(some "s1", aliceUser)],
    sockets := [(0, aliceUser)] }

/-- Scenario state for the identify-conflict claims: Alice is registered,
her connection 0 is approved, and a second connection 1 is still
unapproved. -/
def stC5 : SysState :=
  { initSys 50 30 [] with
    users := usersAlice,
    conns := [{ id := 0, canListen := true }, { id := 1, canListen := false }] }

/-- An identify frame from connection 1 reusing the session token of
Alice: the proposed name `Bob` is free, but `createUser` throws on the
session index. -/
def frameC5 : Json :=
  .obj [("request", .str "identify"), ("name", .str "Bob"),
        ("sid", .str "s1")]

/-- The message the relay hands to the channel for `frameC5` from
connection 1. -/
def msgC5 : Msg :=
  { jsonToMsg (framePrep frameC5) with sender := some 1,
                                       event := some "transmit" }

/-- Scenario state for the rename claims: Alice registered, her
connection approved. -/
def stC6 : SysState :=
  { initSys 50 30 [] with
    users := usersAlice,
    conns := [{ id := 0, canListen := true }] }

/-- Alice asks to be renamed to the case variant `alice` of her own
current name. -/
def msgC6 : Msg :=
  { request := some "rename", text := some "alice", sender := some 0 }

/-- The forbidden-key scenario payload of the spec:
`{_serial: 99, text: "x"}`. -/
def frameC7 : Json := .obj [("_serial", .num 99), ("text", .str "x")]

/-- A chain of `n` nested objects with no underscore-prefixed key. -/
def deepObj : Nat → Json
  | 0 => .num 1
  | n + 1 => .obj [("a", deepObj n)]

/-- A history-worthy plain text message, as the server synthesizes. -/
def persistMsg : Msg := { text := some "x", remember := some true }

end WsChat

namespace WsChat

/-! # Theorems

## Association-list lemmas -/

theorem mapGet_mapSet_self {α β : Type} [DecidableEq α]
    (m : List (α × β)) (k : α) (v : β) : mapGet (mapSet m k v) k = some v := by
  induction m with
  | nil => simp [mapGet, mapSet]
  | cons p rest ih =>
    obtain ⟨k0, v0⟩ := p
    by_cases h : k = k0 <;> simp [mapGet, mapSet, h, ih]

theorem mapGet_mapSet_ne {α β : Type} [DecidableEq α]
    (m : List (α × β)) {k a : α} (v : β) (h : a ≠ k) :
    mapGet (mapSet m k v) a = mapGet m a := by
  induction m with
  | nil => simp [mapGet, mapSet, h]
  | cons p rest ih =>
    obtain ⟨k0, v0⟩ := p
    by_cases hk : k = k0
    · subst hk; simp [mapGet, mapSet, h]
    · by_cases ha : a = k0 <;> simp [mapGet, mapSet, hk, ha, ih]

theorem mapGet_mapDel_ne {α β : Type} [DecidableEq α]
    (m : List (α × β)) {k a : α} (h : a ≠ k) :
    mapGet (mapDel m k) a = mapGet m a := by
  induction m with
  | nil => simp [mapDel]
  | cons p rest ih =>
    obtain ⟨k0, v0⟩ := p
    by_cases hk : k = k0
    · subst hk; simp [mapGet, mapDel, h]
    · by_cases ha : a = k0 <;> simp [mapGet, mapDel, hk, ha, ih]

theorem mapGet_eq_none_iff {α β : Type} [DecidableEq α]
    (m : List (α × β)) (k : α) :
    mapGet m k = none ↔ k ∉ m.map Prod.fst := by
  induction m with
  | nil => simp [mapGet]
  | cons p rest ih =>
    obtain ⟨k0, v0⟩ := p
    by_cases h : k = k0 <;> simp [mapGet, h, ih]

theorem nodupKeys_cons_iff {α β : Type} (k : α) (v : β) (m : List (α × β)) :
    NodupKeys ((k, v) :: m) ↔ k ∉ m.map Prod.fst ∧ NodupKeys m := by
  simp [NodupKeys]

theorem mapGet_mapDel_self {α β : Type} [DecidableEq α]
    {m : List (α × β)} (hm : NodupKeys m) (k : α) :
    mapGet (mapDel m k) k = none := by
  induction m with
  | nil => simp [mapDel, mapGet]
  | cons p rest ih =>
    obtain ⟨k0, v0⟩ := p
    rw [nodupKeys_cons_iff] at hm
    by_cases hk : k = k0
    · subst hk
      simpa [mapDel, mapGet_eq_none_iff] using hm.1
    · simp [mapDel, mapGet, hk, ih hm.2]

theorem mapSet_mem_cases {α β : Type} [DecidableEq α]
    {m : List (α × β)} {k : α} {v : β} {q : α × β}
    (h : q ∈ mapSet m k v) : q ∈ m ∨ q.1 = k := by
  induction m with
  | nil =>
    have he : mapSet ([] : List (α × β)) k v = [(k, v)] := by simp [mapSet]
    rw [he, List.mem_singleton] at h
    subst h
    exact Or.inr rfl
  | cons p rest ih =>
    obtain ⟨k0, v0⟩ := p
    by_cases hk : k = k0
    · have he : mapSet ((k0, v0) :: rest) k v = (k, v) :: rest := by
        simp [mapSet, hk]
      rw [he, List.mem_cons] at h
      rcases h with h1 | h2
      · subst h1
        exact Or.inr rfl
      · exact Or.inl (List.mem_cons_of_mem _ h2)
    · have he : mapSet ((k0, v0) :: rest) k v = (k0, v0) :: mapSet rest k v := by
        simp [mapSet, hk]
      rw [he, List.mem_cons] at h
      rcases h with h1 | h2
      · subst h1
        exact Or.inl (List.mem_cons_self _ _)
      · rcases ih h2 with h3 | h4
        · exact Or.inl (List.mem_cons_of_mem _ h3)
        · exact Or.inr h4

theorem mapDel_sublist {α β : Type} [DecidableEq α]
    (m : List (α × β)) (k : α) : (mapDel m k).Sublist m := by
  induction m with
  | nil => simp [mapDel]
  | cons p rest ih =>
    obtain ⟨k0, v0⟩ := p
    by_cases hk : k = k0
    · rw [mapDel, if_pos hk]
      exact List.sublist_cons_self _ _
    · rw [mapDel, if_neg hk]
      exact List.Sublist.cons₂ _ ih

theorem nodupKeys_mapSet {α β : Type} [DecidableEq α]
    {m : List (α × β)} (hm : NodupKeys m) (k : α) (v : β) :
    NodupKeys (mapSet m k v) := by
  induction m with
  | nil => simp [mapSet, NodupKeys]
  | cons p rest ih =>
    obtain ⟨k0, v0⟩ := p
    rw [nodupKeys_cons_iff] at hm
    by_cases hk : k = k0
    · subst hk
      have he : mapSet ((k, v0) :: rest) k v = (k, v) :: rest := by
        simp [mapSet]
      rw [he, nodupKeys_cons_iff]
      exact hm
    · have he : mapSet ((k0, v0) :: rest) k v = (k0, v0) :: mapSet rest k v := by
        simp [mapSet, hk]
      rw [he, nodupKeys_cons_iff]
      refine ⟨fun hmem => ?_, ih hm.2⟩
      rcases List.mem_map.1 hmem with ⟨q, hq, hqk⟩
      rcases mapSet_mem_cases hq with h3 | h4
      · exact hm.1 (hqk ▸ List.mem_map_of_mem _ h3)
      · exact hk (by rw [← h4]; exact hqk)

theorem nodupKeys_mapDel {α β : Type} [DecidableEq α]
    {m : List (α × β)} (hm : NodupKeys m) (k : α) :
    NodupKeys (mapDel m k) :=
  List.Nodup.sublist (List.Sublist.map Prod.fst (mapDel_sublist m k)) hm

/-! ## C1 development: the three registry indexes stay in agreement -/

theorem getUser_resolves {us : Users} {u : ChatUser} {t : Trait}
    (h : Agree us) (hg : getUser us t = some u) :
    mapGet us.lowerCaseNames u.lowerCaseName = some u ∧
    mapGet us.sessions u.sessionId = some u ∧
    mapGet us.sockets u.socketId = some u := by
  obtain ⟨h1, h2, h3⟩ := h
  cases t with
  | byName n =>
    rw [getUser] at hg
    obtain ⟨hk, hs, hw⟩ := h1 _ _ hg
    exact ⟨hk ▸ hg, hs, hw⟩
  | bySession sid =>
    rw [getUser] at hg
    obtain ⟨hk, hn, hw⟩ := h2 _ _ hg
    exact ⟨hn, hk ▸ hg, hw⟩
  | bySocket i =>
    rw [getUser] at hg
    obtain ⟨hk, hn, hs⟩ := h3 _ _ hg
    exact ⟨hn, hs, hk ▸ hg⟩

theorem usersWF_empty : UsersWF emptyUsers := by
  refine ⟨⟨?_, ?_, ?_⟩, ?_, ?_, ?_⟩ <;>
    simp [emptyUsers, mapGet, NodupKeys]

theorem usersWF_createUser {us us2 : Users} {p : ChatUser}
    (h : UsersWF us) (hc : createUser us p = .ok us2) : UsersWF us2 := by
  obtain ⟨⟨h1, h2, h3⟩, hn1, hn2, hn3⟩ := h
  unfold createUser at hc
  split at hc
  · simp at hc
  split at hc
  · simp at hc
  split at hc
  · simp at hc
  rename_i c1 c2 c3
  rw [Option.not_isSome_iff_eq_none] at c1 c2 c3
  have e1 := c1
  have e2 := c2
  have e3 := c3
  injection hc with hc
  subst hc
  have plc : p.lowerCaseName = jsLower p.name := rfl
  refine ⟨⟨?_, ?_, ?_⟩, ?_, ?_, ?_⟩
  · intro k v hv
    by_cases hk : k = p.lowerCaseName
    · subst hk
      rw [mapGet_mapSet_self] at hv
      cases hv
      exact ⟨rfl, mapGet_mapSet_self .., mapGet_mapSet_self ..⟩
    · rw [mapGet_mapSet_ne _ _ hk] at hv
      obtain ⟨hvk, hvs, hvw⟩ := h1 _ _ hv
      have hvs2 : v.sessionId ≠ p.sessionId := fun he => by
        rw [he, e2] at hvs; cases hvs
      have hvw2 : v.socketId ≠ p.socketId := fun he => by
        rw [he, e3] at hvw; cases hvw
      exact ⟨hvk, by rw [mapGet_mapSet_ne _ _ hvs2]; exact hvs,
        by rw [mapGet_mapSet_ne _ _ hvw2]; exact hvw⟩
  · intro k v hv
    by_cases hk : k = p.sessionId
    · subst hk
      rw [mapGet_mapSet_self] at hv
      cases hv
      exact ⟨rfl, mapGet_mapSet_self .., mapGet_mapSet_self ..⟩
    · rw [mapGet_mapSet_ne _ _ hk] at hv
      obtain ⟨hvk, hvn, hvw⟩ := h2 _ _ hv
      have hvn2 : v.lowerCaseName ≠ p.lowerCaseName := fun he => by
        rw [he, plc, e1] at hvn; cases hvn
      have hvw2 : v.socketId ≠ p.socketId := fun he => by
        rw [he, e3] at hvw; cases hvw
      exact ⟨hvk, by rw [mapGet_mapSet_ne _ _ hvn2]; exact hvn,
        by rw [mapGet_mapSet_ne _ _ hvw2]; exact hvw⟩
  · intro k v hv
    by_cases hk : k = p.socketId
    · subst hk
      rw [mapGet_mapSet_self] at hv
      cases hv
      exact ⟨rfl, mapGet_mapSet_self .., mapGet_mapSet_self ..⟩
    · rw [mapGet_mapSet_ne _ _ hk] at hv
      obtain ⟨hvk, hvn, hvs⟩ := h3 _ _ hv
      have hvn2 : v.lowerCaseName ≠ p.lowerCaseName := fun he => by
        rw [he, plc, e1] at hvn; cases hvn
      have hvs2 : v.sessionId ≠ p.sessionId := fun he => by
        rw [he, e2] at hvs; cases hvs
      exact ⟨hvk, by rw [mapGet_mapSet_ne _ _ hvn2]; exact hvn,
        by rw [mapGet_mapSet_ne _ _ hvs2]; exact hvs⟩
  · exact nodupKeys_mapSet hn1 _ _
  · exact nodupKeys_mapSet hn2 _ _
  · exact nodupKeys_mapSet hn3 _ _

theorem usersWF_deleteUser {us : Users} (h : UsersWF us) (t : Trait) :
    UsersWF (deleteUser us t).2 := by
  obtain ⟨hA, hn1, hn2, hn3⟩ := h
  cases hg : getUser us t with
  | none =>
    simp only [deleteUser, hg]
    exact ⟨hA, hn1, hn2, hn3⟩
  | some u =>
    simp only [deleteUser, hg]
    obtain ⟨gu1, gu2, gu3⟩ := getUser_resolves hA hg
    obtain ⟨h1, h2, h3⟩ := hA
    refine ⟨⟨?_, ?_, ?_⟩, nodupKeys_mapDel hn1 _, nodupKeys_mapDel hn2 _,
      nodupKeys_mapDel hn3 _⟩
    · intro k v hv
      by_cases hk : k = u.lowerCaseName
      · subst hk; rw [mapGet_mapDel_self hn1] at hv; cases hv
      · rw [mapGet_mapDel_ne _ hk] at hv
        obtain ⟨hvk, hvs, hvw⟩ := h1 _ _ hv
        have hne : v ≠ u := fun he => hk (by rw [hvk, he])
        have hs2 : v.sessionId ≠ u.sessionId := fun he => by
          rw [he, gu2] at hvs; exact hne (by cases hvs; rfl)
        have hw2 : v.socketId ≠ u.socketId := fun he => by
          rw [he, gu3] at hvw; exact hne (by cases hvw; rfl)
        exact ⟨hvk, by rw [mapGet_mapDel_ne _ hs2]; exact hvs,
          by rw [mapGet_mapDel_ne _ hw2]; exact hvw⟩
    · intro k v hv
      by_cases hk : k = u.sessionId
      · subst hk; rw [mapGet_mapDel_self hn2] at hv; cases hv
      · rw [mapGet_mapDel_ne _ hk] at hv
        obtain ⟨hvk, hvn, hvw⟩ := h2 _ _ hv
        have hne : v ≠ u := fun he => hk (by rw [hvk, he])
        have hv1 : v.lowerCaseName ≠ u.lowerCaseName := fun he => by
          rw [he, gu1] at hvn; exact hne (by cases hvn; rfl)
        have hw2 : v.socketId ≠ u.socketId := fun he => by
          rw [he, gu3] at hvw; exact hne (by cases hvw; rfl)
        exact ⟨hvk, by rw [mapGet_mapDel_ne _ hv1]; exact hvn,
          by rw [mapGet_mapDel_ne _ hw2]; exact hvw⟩
    · intro k v hv
      by_cases hk : k = u.socketId
      · subst hk; rw [mapGet_mapDel_self hn3] at hv; cases hv
      · rw [mapGet_mapDel_ne _ hk] at hv
        obtain ⟨hvk, hvn, hvs⟩ := h3 _ _ hv
        have hne : v ≠ u := fun he => hk (by rw [hvk, he])
        have hv1 : v.lowerCaseName ≠ u.lowerCaseName := fun he => by
          rw [he, gu1] at hvn; exact hne (by cases hvn; rfl)
        have hs2 : v.sessionId ≠ u.sessionId := fun he => by
          rw [he, gu2] at hvs; exact hne (by cases hvs; rfl)
        exact ⟨hvk, by rw [mapGet_mapDel_ne _ hv1]; exact hvn,
          by rw [mapGet_mapDel_ne _ hs2]; exact hvs⟩

theorem usersWF_updateUser {us : Users} (h : UsersWF us) (t : Trait)
    (patch : Patch) : UsersWF (updateUser us t patch).1 := by
  cases hg : getUser us t with
  | none =>
    simp only [updateUser, hg]
    exact h
  | some u =>
    have hdel : UsersWF (deleteUser us (.byName u.name)).2 :=
      usersWF_deleteUser h _
    cases hc : createUser (deleteUser us (.byName u.name)).2
        (applyPatch u patch) with
    | ok us2 =>
      simp only [updateUser, hg, hc]
      exact usersWF_createUser hdel hc
    | error e =>
      simp only [updateUser, hg, hc]
      exact hdel

theorem usersWF_applyRegOp {us : Users} (h : UsersWF us) (op : RegOp) :
    UsersWF (applyRegOp us op) := by
  cases op with
  | create p =>
    cases hc : createUser us p with
    | ok us2 =>
      simp only [applyRegOp, hc]
      exact usersWF_createUser h hc
    | error e =>
      simp only [applyRegOp, hc]
      exact h
  | delete t => exact usersWF_deleteUser h t
  | update t patch => exact usersWF_updateUser h t patch

theorem usersWF_runReg (ops : List RegOp) : UsersWF (runReg ops) := by
  have : ∀ us, UsersWF us → UsersWF (ops.foldl applyRegOp us) := by
    induction ops with
    | nil => exact fun us h => h
    | cons op rest ih => exact fun us h => ih _ (usersWF_applyRegOp h op)
  exact this _ usersWF_empty

/-- C1: for every sequence of user-registry operations (`createUser`,
`deleteUser`, `updateUser`) starting from the empty registry, the three
indexes agree on membership: any binding of any index is stored under the
user record's own key and that record also resolves in the other two
indexes under its own keys; in particular a failed `createUser` (whose
throws all happen before any insertion) leaves the registry unchanged,
which `applyRegOp` exhibits and the quantification over sequences with
failing operations covers. -/
theorem registry_three_indexes_agree (ops : List RegOp) :
    Agree (runReg ops) := (usersWF_runReg ops).1

/-! ## C8 development: generated names are fresh and non-empty -/

theorem digitCh_toNat : ∀ n, n < 10 → (digitCh n).toNat = 48 + n := by decide

theorem digitCh_toLower : ∀ n, n < 10 → Char.toLower (digitCh n) = digitCh n := by
  decide

theorem natDigits_of_lt {n : Nat} (h : n < 10) : natDigits n = [digitCh n] := by
  unfold natDigits
  rw [dif_pos h]

theorem natDigits_of_ge {n : Nat} (h : ¬ n < 10) :
    natDigits n = natDigits (n / 10) ++ [digitCh (n % 10)] := by
  conv_lhs => rw [natDigits]
  rw [dif_neg h]

theorem decodeDigits_natDigits (n : Nat) : decodeDigits (natDigits n) = n := by
  induction n using Nat.strong_induction_on with
  | _ n ih =>
    by_cases h : n < 10
    · rw [natDigits_of_lt h]
      simp only [decodeDigits, List.foldl_cons, List.foldl_nil]
      rw [digitCh_toNat n h]
      omega
    · rw [natDigits_of_ge h]
      have hd : decodeDigits (natDigits (n / 10) ++ [digitCh (n % 10)]) =
          10 * decodeDigits (natDigits (n / 10)) + ((digitCh (n % 10)).toNat - 48) := by
        simp [decodeDigits, List.foldl_append]
      rw [hd, ih (n / 10) (Nat.div_lt_self (by omega) (by omega)),
        digitCh_toNat (n % 10) (Nat.mod_lt _ (by omega))]
      omega

theorem natStr_injective {a b : Nat} (h : natStr a = natStr b) : a = b := by
  have hd : natDigits a = natDigits b := congrArg String.data h
  have h2 := congrArg decodeDigits hd
  rwa [decodeDigits_natDigits, decodeDigits_natDigits] at h2

theorem natDigits_fixed_by_toLower (n : Nat) :
    ∀ c ∈ natDigits n, Char.toLower c = c := by
  induction n using Nat.strong_induction_on with
  | _ n ih =>
    by_cases h : n < 10
    · rw [natDigits_of_lt h]
      intro c hc
      rw [List.mem_singleton] at hc
      subst hc
      exact digitCh_toLower n h
    · rw [natDigits_of_ge h]
      intro c hc
      rcases List.mem_append.1 hc with h1 | h2
      · exact ih (n / 10) (Nat.div_lt_self (by omega) (by omega)) c h1
      · rw [List.mem_singleton] at h2
        subst h2
        exact digitCh_toLower (n % 10) (Nat.mod_lt _ (by omega))

theorem map_toLower_fixed {l : List Char} (h : ∀ c ∈ l, Char.toLower c = c) :
    l.map Char.toLower = l := by
  induction l with
  | nil => rfl
  | cons c rest ih =>
    rw [List.map_cons, h c (by simp),
      ih (fun x hx => h x (List.mem_cons_of_mem _ hx))]

theorem jsLower_append_natStr (b : String) (j : Nat) :
    jsLower (b ++ natStr j) = jsLower b ++ natStr j := by
  apply String.ext
  show ((b ++ natStr j).data).map Char.toLower = (jsLower b ++ natStr j).data
  rw [String.data_append, String.data_append, List.map_append]
  show b.data.map Char.toLower ++ (natDigits j).map Char.toLower =
    (jsLower b).data ++ natDigits j
  rw [map_toLower_fixed (natDigits_fixed_by_toLower j)]
  rfl

theorem suffixKey_injective (b : String) {i j : Nat}
    (h : jsLower (b ++ natStr i) = jsLower (b ++ natStr j)) : i = j := by
  rw [jsLower_append_natStr, jsLower_append_natStr] at h
  have hd : (jsLower b).data ++ natDigits i = (jsLower b).data ++ natDigits j :=
    congrArg String.data h
  have h2 := List.append_cancel_left hd
  exact natStr_injective (String.ext h2)

theorem mapDel_length {α β : Type} [DecidableEq α] {m : List (α × β)} {k : α}
    (h : (mapGet m k).isSome) : m.length = (mapDel m k).length + 1 := by
  induction m with
  | nil => simp [mapGet] at h
  | cons p rest ih =>
    obtain ⟨k0, v0⟩ := p
    by_cases hk : k = k0
    · rw [mapDel, if_pos hk]
      simp
    · rw [mapGet, if_neg hk] at h
      rw [mapDel, if_neg hk]
      simp [ih h]

theorem mapGet_isSome_length {α β : Type} [DecidableEq α] :
    ∀ (ks : List α) (m : List (α × β)), ks.Nodup →
      (∀ k ∈ ks, (mapGet m k).isSome) → ks.length ≤ m.length := by
  intro ks
  induction ks with
  | nil => intro m _ _; simp
  | cons k rest ih =>
    intro m hnd hall
    rw [List.nodup_cons] at hnd
    have hk : (mapGet m k).isSome := hall k (by simp)
    have hrest : ∀ a ∈ rest, (mapGet (mapDel m k) a).isSome := by
      intro a ha
      rw [mapGet_mapDel_ne _ (fun he => hnd.1 (by rw [he] at ha; exact ha))]
      exact hall a (List.mem_cons_of_mem _ ha)
    have := ih (mapDel m k) hnd.2 hrest
    rw [List.length_cons, mapDel_length hk]
    omega

theorem exists_free_suffix (us : Users) (base : String) :
    ∃ j, 2 ≤ j ∧ j < 2 + (us.lowerCaseNames.length + 1) ∧
      (getUser us (.byName (base ++ "-" ++ natStr j))).isSome = false := by
  by_contra hall
  push_neg at hall
  have htaken : ∀ j ∈ List.range' 2 (us.lowerCaseNames.length + 1),
      (mapGet us.lowerCaseNames (jsLower ((base ++ "-") ++ natStr j))).isSome := by
    intro j hj
    rw [List.mem_range'_1] at hj
    have h2 := hall j hj.1 hj.2
    simp only [ne_eq, Bool.not_eq_false] at h2
    rw [getUser] at h2
    exact h2
  have hinj : ∀ a ∈ List.range' 2 (us.lowerCaseNames.length + 1),
      ∀ b ∈ List.range' 2 (us.lowerCaseNames.length + 1),
      jsLower ((base ++ "-") ++ natStr a) = jsLower ((base ++ "-") ++ natStr b) →
        a = b := fun a _ b _ h => suffixKey_injective _ h
  have hnd : (List.map (fun j => jsLower ((base ++ "-") ++ natStr j))
      (List.range' 2 (us.lowerCaseNames.length + 1))).Nodup :=
    List.Nodup.map_on hinj (List.nodup_range' 2 _)
  have hlen := mapGet_isSome_length
    (List.map (fun j => jsLower ((base ++ "-") ++ natStr j))
      (List.range' 2 (us.lowerCaseNames.length + 1)))
    us.lowerCaseNames hnd (by
      intro k hk
      rcases List.mem_map.1 hk with ⟨j, hj, hjk⟩
      exact hjk ▸ htaken j hj)
  rw [List.length_map, List.length_range'] at hlen
  omega

theorem probeFrom_not_taken (us : Users) (base : String) :
    ∀ fuel k, (∃ j, k ≤ j ∧ j < k + fuel ∧
        (getUser us (.byName (base ++ "-" ++ natStr j))).isSome = false) →
      (getUser us (.byName (probeFrom us base k fuel))).isSome = false := by
  intro fuel
  induction fuel with
  | zero =>
    intro k h
    rcases h with ⟨j, h1, h2, _⟩
    omega
  | succ f ih =>
    intro k h
    by_cases hc : (getUser us (.byName (base ++ "-" ++ natStr k))).isSome
    · rw [probeFrom, if_pos hc]
      apply ih
      rcases h with ⟨j, h1, h2, h3⟩
      refine ⟨j, ?_, by omega, h3⟩
      rcases Nat.eq_or_lt_of_le h1 with he | hlt
      · exfalso
        rw [← he] at h3
        rw [h3] at hc
        simp at hc
      · omega
    · rw [probeFrom, if_neg hc]
      rwa [Bool.not_eq_true] at hc

theorem probeFrom_shape (us : Users) (base : String) :
    ∀ fuel k, ∃ j, probeFrom us base k fuel = base ++ "-" ++ natStr j := by
  intro fuel
  induction fuel with
  | zero => exact fun k => ⟨k, rfl⟩
  | succ f ih =>
    intro k
    by_cases hc : (getUser us (.byName (base ++ "-" ++ natStr k))).isSome
    · rw [probeFrom, if_pos hc]
      exact ih (k + 1)
    · rw [probeFrom, if_neg hc]
      exact ⟨k, rfl⟩

theorem animals_getD_ne_empty : ∀ i, i < 17 → animals.getD i "" ≠ "" := by decide

theorem eq_none_of_isSome_eq_false {α : Type} {o : Option α}
    (h : o.isSome = false) : o = none := by
  cases o with
  | none => rfl
  | some v => simp at h

theorem dash_append_ne_empty (x y : String) : x ++ "-" ++ y ≠ "" := by
  intro he
  have hlen := congrArg String.length he
  rw [String.length_append, String.length_append] at hlen
  have h1 : ("-" : String).length = 1 := rfl
  have h2 : ("" : String).length = 0 := rfl
  omega

theorem space_append_ne_empty (x y : String) : x ++ " " ++ y ≠ "" := by
  intro he
  have hlen := congrArg String.length he
  rw [String.length_append, String.length_append] at hlen
  have h1 : (" " : String).length = 1 := rfl
  have h2 : ("" : String).length = 0 := rfl
  omega

/-- C8: `generateRandomName` always returns a display name that is
non-empty and held by no existing user (under the registry case-insensitive
lookup), for every registry and every pair of random draws; the identify
stage therefore creates its user under a unique, non-empty name whenever it
falls back to generation, and otherwise uses the client name, which the
branch condition guarantees to be non-empty and free. -/
theorem generateRandomName_fresh_nonempty (us : Users) (ai aj : Nat) :
    generateRandomName us ai aj ≠ "" ∧
    getUser us (.byName (generateRandomName us ai aj)) = none := by
  have hanim : animals.getD (ai % animals.length) "" ≠ "" :=
    animals_getD_ne_empty _ (Nat.mod_lt _ (by decide))
  unfold generateRandomName
  by_cases h1 : (getUser us
      (.byName (animals.getD (ai % animals.length) ""))).isSome
  · rw [if_pos h1]
    by_cases h2 : (getUser us
        (.byName (adjectives.getD (aj % adjectives.length) "" ++ " " ++
          animals.getD (ai % animals.length) ""))).isSome
    · rw [if_pos h2]
      have hfree := probeFrom_not_taken us
        (adjectives.getD (aj % adjectives.length) "" ++ " " ++
          animals.getD (ai % animals.length) "")
        (us.lowerCaseNames.length + 1) 2 (exists_free_suffix us _)
      constructor
      · rcases probeFrom_shape us
          (adjectives.getD (aj % adjectives.length) "" ++ " " ++
            animals.getD (ai % animals.length) "") (us.lowerCaseNames.length + 1)
            2 with ⟨j, hj⟩
        rw [hj]
        exact dash_append_ne_empty _ _
      · exact eq_none_of_isSome_eq_false hfree
    · rw [if_neg h2]
      rw [Bool.not_eq_true] at h2
      exact ⟨space_append_ne_empty _ _, eq_none_of_isSome_eq_false h2⟩
  · rw [if_neg h1]
    rw [Bool.not_eq_true] at h1
    exact ⟨hanim, eq_none_of_isSome_eq_false h1⟩

/-! ## C2 development: broadcasts never reach unapproved connections -/

theorem broadcastTargets_approved {conns : List ConnInfo} {m : Msg}
    {c : ConnInfo} (h : c ∈ broadcastTargets conns m) : c.canListen = true := by
  rcases hma : m.toAddr with _ | t
  · rw [broadcastTargets, hma] at h
    exact (List.mem_filter.1 h).2
  · rw [broadcastTargets, hma] at h
    exact (Bool.and_eq_true_iff.1 (List.mem_filter.1 h).2).1

theorem approveConns_mem_cases {conns : List ConnInfo} {i : Int} {c : ConnInfo}
    (h : c ∈ approveConns conns i) :
    c ∈ conns ∨
      (∃ c0 ∈ conns, c0.id = i ∧ c = { c0 with canListen := true }) := by
  induction conns with
  | nil => simp [approveConns] at h
  | cons c0 rest ih =>
    by_cases hk : c0.id = i
    · rw [approveConns, if_pos hk] at h
      rcases List.mem_cons.1 h with h1 | h2
      · exact Or.inr ⟨c0, List.mem_cons_self _ _, hk, h1⟩
      · exact Or.inl (List.mem_cons_of_mem _ h2)
    · rw [approveConns, if_neg hk] at h
      rcases List.mem_cons.1 h with h1 | h2
      · exact Or.inl (h1 ▸ List.mem_cons_self _ _)
      · rcases ih h2 with h3 | ⟨cc, hcc1, hcc2, hcc3⟩
        · exact Or.inl (List.mem_cons_of_mem _ h3)
        · exact Or.inr ⟨cc, List.mem_cons_of_mem _ hcc1, hcc2, hcc3⟩

theorem runRelay_unapproved (ops : List RelayOp) :
    ∀ c ∈ (runRelay ops).conns,
      RelayOp.approveListener c.id ∉ ops → c.canListen = false := by
  induction ops using List.reverseRecOn with
  | nil =>
    intro c hc
    simp [runRelay] at hc
  | append_singleton ops op ih =>
    intro c hc hnot
    rw [runRelay, List.foldl_append] at hc
    have hnot1 : RelayOp.approveListener c.id ∉ ops :=
      fun h => hnot (List.mem_append_left _ h)
    have hnot2 : op ≠ RelayOp.approveListener c.id :=
      fun h => hnot (List.mem_append_right _ (by simp [h]))
    cases op with
    | receiveConn =>
      simp only [relayStep, List.foldl_cons, List.foldl_nil] at hc
      rcases List.mem_append.1 hc with h1 | h2
      · exact ih c h1 hnot1
      · rw [List.mem_singleton] at h2
        rw [h2]
    | approveListener i =>
      simp only [relayStep, List.foldl_cons, List.foldl_nil] at hc
      rcases approveConns_mem_cases hc with h1 | ⟨c0, hc0, hid, hcc⟩
      · exact ih c h1 hnot1
      · exfalso
        have hci : c.id = i := by
          rw [hcc]
          exact hid
        exact hnot2 (by rw [hci])
    | closeConn i =>
      simp only [relayStep, List.foldl_cons, List.foldl_nil] at hc
      exact ih c (List.mem_of_mem_filter hc) hnot1

/-- C2: for every sequence of relay operations from the fresh relay and
every message, a connection for which `approveListener` was never invoked
with its id (its record is still Unapproved: `canListen` is false, as the
run lemma shows) is never among the connections `broadcast` sends the
encoded message to, whether the message is addressed (`to` present) or
general; and conversely every connection receiving any broadcast has
`canListen = true`. -/
theorem unapproved_never_receives_broadcast (ops : List RelayOp) (m : Msg)
    (c : ConnInfo) (hmem : c ∈ (runRelay ops).conns)
    (hnever : RelayOp.approveListener c.id ∉ ops) :
    c ∉ broadcastTargets (runRelay ops).conns m ∧
    ∀ c2 ∈ broadcastTargets (runRelay ops).conns m, c2.canListen = true := by
  have hfalse := runRelay_unapproved ops c hmem hnever
  refine ⟨fun hin => ?_, fun c2 h => broadcastTargets_approved h⟩
  rw [broadcastTargets_approved hin] at hfalse
  cases hfalse

/-- Witness for C2: after a single registration, the fresh connection is
unapproved and receives neither an addressed nor (here) a general
broadcast. -/
theorem unapproved_never_receives_broadcast_witness :
    ({ id := 0, canListen := false } : ConnInfo) ∉
      broadcastTargets (runRelay [RelayOp.receiveConn]).conns
        { text := some "hi" } ∧
    ∀ c2 ∈ broadcastTargets (runRelay [RelayOp.receiveConn]).conns
        ({ text := some "hi" } : Msg), c2.canListen = true :=
  unapproved_never_receives_broadcast [RelayOp.receiveConn]
    { text := some "hi" } { id := 0, canListen := false } (by decide) (by decide)

/-! ## C7 and C10 development: the input sanitizer drops bad frames -/

theorem cff_top {j : Json} {d : Nat} (hd : 9 < d) :
    containsForbiddenFields j d = true := by
  rw [containsForbiddenFields]
  rcases 11 - d with _ | f
  · rw [cffAux]
  · cases j <;> simp [cffAux, hd]

theorem cff_obj {kvs : List (String × Json)} {d : Nat} (hd : ¬ 9 < d) :
    containsForbiddenFields (.obj kvs) d =
      kvs.any (fun kv => underscorePrefixed kv.1 ||
        (kv.2.isObjLike && containsForbiddenFields kv.2 (d + 1))) := by
  have he : 11 - d = (11 - (d + 1)) + 1 := by omega
  rw [containsForbiddenFields, he, cffAux, if_neg hd]
  rfl

theorem cff_arr {es : List Json} {d : Nat} (hd : ¬ 9 < d) :
    containsForbiddenFields (.arr es) d =
      es.any (fun v => v.isObjLike && containsForbiddenFields v (d + 1)) := by
  have he : 11 - d = (11 - (d + 1)) + 1 := by omega
  rw [containsForbiddenFields, he, cffAux, if_neg hd]
  rfl

theorem isObjLike_of_resKeyWithin {n : Nat} {j : Json}
    (h : resKeyWithin n j = true) : j.isObjLike = true := by
  cases n with
  | zero => simp [resKeyWithin] at h
  | succ n => cases j <;> simp_all [resKeyWithin, Json.isObjLike]

theorem isObjLike_of_deeperThan {n : Nat} {j : Json}
    (h : deeperThan n j = true) : j.isObjLike = true := by
  cases n with
  | zero => exact h
  | succ n => cases j <;> simp_all [deeperThan, Json.isObjLike]

theorem cff_of_resKeyWithin :
    ∀ (n : Nat) (j : Json) (d : Nat), n + d ≤ 10 →
      resKeyWithin n j = true → containsForbiddenFields j d = true := by
  intro n
  induction n with
  | zero =>
    intro j d _ h
    simp [resKeyWithin] at h
  | succ n ih =>
    intro j d hnd h
    have hd : ¬ 9 < d := by omega
    cases j with
    | obj kvs =>
      rw [cff_obj hd, List.any_eq_true]
      rw [resKeyWithin, List.any_eq_true] at h
      obtain ⟨kv, hkv, hprop⟩ := h
      refine ⟨kv, hkv, ?_⟩
      simp only [Bool.or_eq_true] at hprop ⊢
      rcases hprop with h1 | h2
      · exact Or.inl h1
      · refine Or.inr ?_
        rw [Bool.and_eq_true]
        exact ⟨isObjLike_of_resKeyWithin h2, ih kv.2 (d + 1) (by omega) h2⟩
    | arr es =>
      rw [cff_arr hd, List.any_eq_true]
      rw [resKeyWithin, List.any_eq_true] at h
      obtain ⟨v, hv, hprop⟩ := h
      refine ⟨v, hv, ?_⟩
      rw [Bool.and_eq_true]
      exact ⟨isObjLike_of_resKeyWithin hprop, ih v (d + 1) (by omega) hprop⟩
    | null => simp [resKeyWithin] at h
    | bool b => simp [resKeyWithin] at h
    | num k => simp [resKeyWithin] at h
    | str s2 => simp [resKeyWithin] at h

theorem cff_of_deeperThan :
    ∀ (n : Nat) (j : Json) (d : Nat), 10 ≤ n + d →
      deeperThan n j = true → containsForbiddenFields j d = true := by
  intro n
  induction n with
  | zero =>
    intro j d hnd _
    exact cff_top (by omega)
  | succ n ih =>
    intro j d hnd h
    by_cases hd : 9 < d
    · exact cff_top hd
    · cases j with
      | obj kvs =>
        rw [cff_obj hd, List.any_eq_true]
        rw [deeperThan, List.any_eq_true] at h
        obtain ⟨kv, hkv, hprop⟩ := h
        refine ⟨kv, hkv, ?_⟩
        simp only [Bool.or_eq_true]
        refine Or.inr ?_
        rw [Bool.and_eq_true]
        exact ⟨isObjLike_of_deeperThan hprop, ih kv.2 (d + 1) (by omega) hprop⟩
      | arr es =>
        rw [cff_arr hd, List.any_eq_true]
        rw [deeperThan, List.any_eq_true] at h
        obtain ⟨v, hv, hprop⟩ := h
        refine ⟨v, hv, ?_⟩
        rw [Bool.and_eq_true]
        exact ⟨isObjLike_of_deeperThan hprop, ih v (d + 1) (by omega) hprop⟩
      | null => simp [deeperThan] at h
      | bool b => simp [deeperThan] at h
      | num k => simp [deeperThan] at h
      | str s2 => simp [deeperThan] at h

/-- C7: an inbound frame whose parsed payload holds a reserved
underscore-prefixed key at any nesting depth within the sanitizer recursion
limit is dropped by the relay before reaching the channel: the resulting
state is exactly the previous one, so the registry, history, serial and
timestamp counters are unchanged, nothing is handed to broadcast, and no
reply goes to the sender. -/
theorem forbidden_key_frame_dropped (st : SysState) (id : Int) (j : Json)
    (h : resKeyWithin 10 j = true) : handleFrame st id j = st := by
  have hobj := isObjLike_of_resKeyWithin h
  have hcff := cff_of_resKeyWithin 10 j 0 (by omega) h
  simp [handleFrame, framePrep, hobj, hcff]

/-- Witness for C7: the spec scenario payload `{_serial: 99, text: "x"}`
leaves a fresh system state untouched. -/
theorem forbidden_key_frame_dropped_witness :
    handleFrame (initSys 50 30 []) 5 frameC7 = initSys 50 30 [] :=
  forbidden_key_frame_dropped _ 5 frameC7 (by decide)

/-- C10: an inbound frame whose parsed JSON nests objects more than 10
levels deep is dropped even without any underscore-prefixed key:
`containsForbiddenFields` returns true once `recursionDepth` exceeds 9, and
the relay state is left exactly unchanged. -/
theorem deeply_nested_frame_dropped (st : SysState) (id : Int) (j : Json)
    (h : deeperThan 10 j = true) :
    containsForbiddenFields j 0 = true ∧ handleFrame st id j = st := by
  have hobj := isObjLike_of_deeperThan h
  have hcff := cff_of_deeperThan 10 j 0 (by omega) h
  exact ⟨hcff, by simp [handleFrame, framePrep, hobj, hcff]⟩

/-- Witness for C10: a clean chain of eleven nested objects is rejected
and dropped. -/
theorem deeply_nested_frame_dropped_witness :
    containsForbiddenFields (deepObj 11) 0 = true ∧
    handleFrame (initSys 50 30 []) 6 (deepObj 11) = initSys 50 30 [] :=
  deeply_nested_frame_dropped _ 6 (deepObj 11) (by decide)

/-! ## C3 and C9 development: monotone serials and timestamps -/

theorem nextStamp_gt (l n : Nat) : l < nextStamp l n := by
  simp only [nextStamp]
  split
  · omega
  · omega

theorem mem_of_getLast? {α : Type} {l : List α} {x : α}
    (h : x ∈ l.getLast?) : x ∈ l := by
  rcases List.mem_getLast?_eq_getLast h with ⟨hne, rfl⟩
  exact List.getLast_mem hne

theorem serialTimeOK_enforceCap {st : SysState} (h : SerialTimeOK st) :
    SerialTimeOK (enforceCap st) := by
  obtain ⟨⟨hlog, hlen, hchain, hbound⟩, ht⟩ := h
  rw [enforceCap]
  split
  · refine ⟨⟨hlog, hlen, ?_, ?_⟩, ht⟩
    · exact hchain.sublist (List.Sublist.map _ (List.drop_sublist _ _))
    · intro r hr
      exact hbound r (List.drop_subset _ _ hr)
  · exact ⟨⟨hlog, hlen, hchain, hbound⟩, ht⟩

theorem serialTimeOK_tailStages {st : SysState} (h : SerialTimeOK st) (m : Msg) :
    SerialTimeOK (tailStages st m) := by
  obtain ⟨⟨hlog, hlen, hchain, hbound⟩, htchain, htbound⟩ := h
  have hgt : st.lastTimestamp < nextStamp st.lastTimestamp st.clock :=
    nextStamp_gt _ _
  have htime : TimeOK { st with
      lastTimestamp := nextStamp st.lastTimestamp st.clock,
      timeLog := st.timeLog ++ [nextStamp st.lastTimestamp st.clock] } := by
    constructor
    · apply List.Chain'.append htchain (List.chain'_singleton _)
      intro x hx y hy
      rw [List.head?_cons] at hy
      cases hy
      have := htbound x (mem_of_getLast? hx)
      omega
    · intro t ht
      rcases List.mem_append.1 ht with h1 | h2
      · have := htbound t h1
        show t ≤ nextStamp st.lastTimestamp st.clock
        omega
      · rw [List.mem_singleton] at h2
        subst h2
        exact Nat.le_refl _
  rw [tailStages]
  by_cases hr : m.remember = some true
  · rw [if_pos hr]
    have hslog : st.serialLog ++ [st.lastSerial + 1] =
        List.range' 1 (st.serialLog ++ [st.lastSerial + 1]).length := by
      rw [List.length_append, List.length_singleton, List.range'_1_concat,
        ← hlog, hlen, Nat.add_comm 1 st.serialLog.length]
    have hchain2 : List.Chain' (· < ·)
        ((st.history ++
          [Msg.toRecord { m with
            time := some (nextStamp st.lastTimestamp st.clock),
            sender := none, remember := none,
            serial := some (st.lastSerial + 1) }]).map
          (fun r => r.serial.getD 0)) := by
      rw [List.map_append]
      apply List.Chain'.append hchain (List.chain'_singleton _)
      intro x hx y hy
      rw [List.head?_cons] at hy
      cases hy
      rcases List.mem_map.1 (mem_of_getLast? hx) with ⟨r, hrmem, hrx⟩
      rcases hbound r hrmem with ⟨s1, hs1, hs2, hs3⟩
      rw [← hrx]
      simp only [hs1, Msg.toRecord, Option.getD_some]
      omega
    have hstep : SerialTimeOK (enforceCap { st with
        lastTimestamp := nextStamp st.lastTimestamp st.clock,
        timeLog := st.timeLog ++ [nextStamp st.lastTimestamp st.clock],
        lastSerial := st.lastSerial + 1,
        serialLog := st.serialLog ++ [st.lastSerial + 1],
        history := st.history ++
          [Msg.toRecord { m with
            time := some (nextStamp st.lastTimestamp st.clock),
            sender := none, remember := none,
            serial := some (st.lastSerial + 1) }] }) := by
      apply serialTimeOK_enforceCap
      refine ⟨⟨hslog, ?_, hchain2, ?_⟩, htime⟩
      · show st.lastSerial + 1 = (st.serialLog ++ [st.lastSerial + 1]).length
        rw [List.length_append, List.length_singleton, hlen]
      · intro r hr2
        rcases List.mem_append.1 hr2 with h1 | h2
        · rcases hbound r h1 with ⟨s1, hs1, hs2, hs3⟩
          refine ⟨s1, hs1, hs2, ?_⟩
          show s1 ≤ st.lastSerial + 1
          omega
        · rw [List.mem_singleton] at h2
          subst h2
          refine ⟨st.lastSerial + 1, rfl, by omega, ?_⟩
          show st.lastSerial + 1 ≤ st.lastSerial + 1
          exact Nat.le_refl _
    exact hstep
  · rw [if_neg hr]
    exact ⟨⟨hlog, hlen, hchain, hbound⟩, htime⟩

theorem serialTimeOK_receiveSimple {st : SysState} (h : SerialTimeOK st)
    (m : Msg) : SerialTimeOK (receiveSimple st m) :=
  serialTimeOK_tailStages h _

theorem serialTimeOK_broadcastUserList {st : SysState} (h : SerialTimeOK st) :
    SerialTimeOK (broadcastUserList st) :=
  serialTimeOK_receiveSimple h _

theorem serialTimeOK_of_eq {st st2 : SysState} (h : SerialTimeOK st)
    (h1 : st2.serialLog = st.serialLog) (h2 : st2.lastSerial = st.lastSerial)
    (h3 : st2.history = st.history) (h4 : st2.timeLog = st.timeLog)
    (h5 : st2.lastTimestamp = st.lastTimestamp) : SerialTimeOK st2 := by
  obtain ⟨⟨a1, a2, a3, a4⟩, b1, b2⟩ := h
  refine ⟨⟨?_, ?_, ?_, ?_⟩, ?_, ?_⟩
  · rw [h1]
    exact a1
  · rw [h2, h1]
    exact a2
  · rw [h3]
    exact a3
  · intro r hr
    rw [h3] at hr
    rw [h2]
    exact a4 r hr
  · rw [h4]
    exact b1
  · intro t ht
    rw [h4] at ht
    rw [h5]
    exact b2 t ht

theorem serialTimeOK_disconnectStage {st : SysState} (h : SerialTimeOK st)
    (m : Msg) : SerialTimeOK (disconnectStage st m) := by
  simp only [disconnectStage]
  split
  · apply serialTimeOK_broadcastUserList
    apply serialTimeOK_receiveSimple
    exact serialTimeOK_of_eq h rfl rfl rfl rfl rfl
  · exact serialTimeOK_broadcastUserList (serialTimeOK_receiveSimple h _)

theorem serialTimeOK_renameStage {st : SysState} (h : SerialTimeOK st)
    (m : Msg) : SerialTimeOK (renameStage st m).1 := by
  simp only [renameStage]
  split
  · exact h
  split
  · split
    · exact h
    · split
      · apply serialTimeOK_of_eq
          (serialTimeOK_receiveSimple (serialTimeOK_receiveSimple h _) _) <;> rfl
      · apply serialTimeOK_broadcastUserList
        apply serialTimeOK_of_eq
          (serialTimeOK_receiveSimple (serialTimeOK_receiveSimple h _) _) <;> rfl
  · split
    · exact h
    · split
      · exact serialTimeOK_receiveSimple h _
      · exact serialTimeOK_receiveSimple (serialTimeOK_receiveSimple h _) _

theorem serialTimeOK_identifyFinish {st : SysState} (h : SerialTimeOK st)
    (sndr : Int) : SerialTimeOK (identifyFinish st sndr).1 := by
  simp only [identifyFinish]
  split
  · exact h
  · exact serialTimeOK_broadcastUserList (serialTimeOK_receiveSimple
      (serialTimeOK_receiveSimple (serialTimeOK_receiveSimple h _) _) _)

theorem serialTimeOK_identifyStage {st : SysState} (h : SerialTimeOK st)
    (m : Msg) : SerialTimeOK (identifyStage st m).1 := by
  simp only [identifyStage]
  split
  · exact serialTimeOK_of_eq h rfl rfl rfl rfl rfl
  split
  · split
    · exact serialTimeOK_of_eq h rfl rfl rfl rfl rfl
    · apply serialTimeOK_identifyFinish
      exact serialTimeOK_of_eq h rfl rfl rfl rfl rfl
  · split
    · exact serialTimeOK_of_eq h rfl rfl rfl rfl rfl
    · apply serialTimeOK_identifyFinish
      exact serialTimeOK_of_eq h rfl rfl rfl rfl rfl

theorem serialTimeOK_historyStage {st : SysState} (h : SerialTimeOK st)
    (m : Msg) : SerialTimeOK (historyStage st m) := by
  rw [historyStage]
  split
  · exact serialTimeOK_receiveSimple h _
  · exact h

theorem serialTimeOK_directStage {st : SysState} (h : SerialTimeOK st)
    (m : Msg) : SerialTimeOK (directStage st m).1 := by
  simp only [directStage]
  split
  · exact serialTimeOK_receiveSimple h _
  · split
    · exact h
    · split
      · exact serialTimeOK_receiveSimple (serialTimeOK_receiveSimple h _) _
      · exact serialTimeOK_receiveSimple h _

theorem serialTimeOK_receive {st : SysState} (h : SerialTimeOK st) (m : Msg) :
    SerialTimeOK (receive st m).1 := by
  rw [receive]
  split
  · exact h
  split
  · exact serialTimeOK_disconnectStage h _
  split
  · exact serialTimeOK_renameStage h _
  split
  · exact serialTimeOK_identifyStage h _
  split
  · exact serialTimeOK_historyStage h _
  split
  · exact serialTimeOK_directStage h _
  split
  · cases transmitEnrich st { m with sender := some (m.sender.getD (-1)) } with
    | error e => exact h
    | ok m2 => exact serialTimeOK_tailStages h _
  · exact serialTimeOK_tailStages h _

theorem serialTimeOK_handleFrame {st : SysState} (h : SerialTimeOK st)
    (id : Int) (j : Json) : SerialTimeOK (handleFrame st id j) := by
  rw [handleFrame]
  split
  · exact h
  split
  · exact h
  · exact serialTimeOK_receive h _

theorem serialTimeOK_sysStep {st : SysState} (h : SerialTimeOK st)
    (op : SysOp) : SerialTimeOK (sysStep st op) := by
  cases op with
  | frame id j => exact serialTimeOK_handleFrame h id j
  | newConn =>
    exact serialTimeOK_receive
      (show SerialTimeOK { st with
        conns := st.conns ++ [{ id := st.nextConnId, canListen := false }],
        nextConnId := st.nextConnId + 1 } from h) _
  | closeConn id =>
    exact serialTimeOK_receive h
      { sender := some id, event := some "disconnect" }
  | recv m => exact serialTimeOK_receive h m
  | tick n => exact h

theorem serialTimeOK_initSys (maxH maxN : Nat) (rands : List (Nat × Nat)) :
    SerialTimeOK (initSys maxH maxN rands) := by
  refine ⟨⟨rfl, rfl, ?_, ?_⟩, ?_, ?_⟩ <;> simp [initSys]

theorem serialTimeOK_runSys (maxH maxN : Nat) (rands : List (Nat × Nat))
    (ops : List SysOp) : SerialTimeOK (runSys maxH maxN rands ops) := by
  rw [runSys]
  have hgen : ∀ st, SerialTimeOK st → SerialTimeOK (ops.foldl sysStep st) := by
    induction ops with
    | nil => exact fun st h => h
    | cons op rest ih => exact fun st h => ih _ (serialTimeOK_sysStep h op)
  exact hgen _ (serialTimeOK_initSys maxH maxN rands)

/-- C3: across every sequence of system operations (frames, connections,
closures, internal receives, clock changes), the ghost log of serial
numbers assigned by the persistence stage is exactly `1, 2, ...,
lastSerial` in assignment order, so each persisted record received
`lastSerial + 1` by pre-increment, every serial is assigned exactly once
and never reused (including across trims, which only shorten the retained
history); the retained history carries strictly increasing serials bounded
by the counter. -/
theorem history_serials_strictly_increasing (maxH maxN : Nat)
    (rands : List (Nat × Nat)) (ops : List SysOp) :
    (runSys maxH maxN rands ops).serialLog =
      List.range' 1 (runSys maxH maxN rands ops).serialLog.length ∧
    (runSys maxH maxN rands ops).lastSerial =
      (runSys maxH maxN rands ops).serialLog.length ∧
    List.Chain' (· < ·)
      ((runSys maxH maxN rands ops).history.map (fun r => r.serial.getD 0)) ∧
    ∀ r ∈ (runSys maxH maxN rands ops).history, ∃ s1,
      r.serial = some s1 ∧ 1 ≤ s1 ∧
        s1 ≤ (runSys maxH maxN rands ops).lastSerial := by
  obtain ⟨⟨h1, h2, h3, h4⟩, _⟩ := serialTimeOK_runSys maxH maxN rands ops
  exact ⟨h1, h2, h3, h4⟩

/-- Witness for C3: one persisted message from a fresh state. -/
theorem history_serials_strictly_increasing_witness :
    (runSys 50 30 [] [SysOp.recv persistMsg]).serialLog =
      List.range' 1 (runSys 50 30 [] [SysOp.recv persistMsg]).serialLog.length ∧
    (runSys 50 30 [] [SysOp.recv persistMsg]).lastSerial =
      (runSys 50 30 [] [SysOp.recv persistMsg]).serialLog.length ∧
    List.Chain' (· < ·)
      ((runSys 50 30 [] [SysOp.recv persistMsg]).history.map
        (fun r => r.serial.getD 0)) ∧
    ∀ r ∈ (runSys 50 30 [] [SysOp.recv persistMsg]).history, ∃ s1,
      r.serial = some s1 ∧ 1 ≤ s1 ∧
        s1 ≤ (runSys 50 30 [] [SysOp.recv persistMsg]).lastSerial :=
  history_serials_strictly_increasing 50 30 [] [SysOp.recv persistMsg]

/-- C9: the timestamp stage assigns `100 * parseInt(Date.now() / 100)` (the
current clock truncated to 100 ms granularity) unless that value is not
strictly above the previously assigned timestamp, in which case it assigns
the previous timestamp plus one; consequently, across every operation
sequence, the assigned timestamps (ghost `timeLog`) are strictly
increasing. -/
theorem timestamps_strictly_increasing (maxH maxN : Nat)
    (rands : List (Nat × Nat)) (ops : List SysOp) :
    List.Chain' (· < ·) (runSys maxH maxN rands ops).timeLog ∧
    (∀ l n, 100 * (n / 100) ≤ l → nextStamp l n = l + 1) ∧
    (∀ l n, ¬ 100 * (n / 100) ≤ l → nextStamp l n = 100 * (n / 100)) ∧
    (∀ l n, l < nextStamp l n) := by
  obtain ⟨_, ht, _⟩ := serialTimeOK_runSys maxH maxN rands ops
  refine ⟨ht, fun l n h => ?_, fun l n h => ?_, nextStamp_gt⟩
  · simp only [nextStamp]
    rw [if_pos h]
  · simp only [nextStamp]
    rw [if_neg h]

/-- Witness for C9: two messages arriving at the same clock value get
strictly increasing timestamps. -/
theorem timestamps_strictly_increasing_witness :
    List.Chain' (· < ·)
      (runSys 50 30 [] [SysOp.recv persistMsg, SysOp.recv persistMsg]).timeLog ∧
    (∀ l n, 100 * (n / 100) ≤ l → nextStamp l n = l + 1) ∧
    (∀ l n, ¬ 100 * (n / 100) ≤ l → nextStamp l n = 100 * (n / 100)) ∧
    (∀ l n, l < nextStamp l n) :=
  timestamps_strictly_increasing 50 30 []
    [SysOp.recv persistMsg, SysOp.recv persistMsg]

/-! ## C4 development: the trim retains the most recent records -/

/-- C4 counterexample: with cap `M = 3`, appending four persisted messages
trims the history to 2 records, not `⌈3 * 0.7⌉ = 3` (the ceiling computed
as `(7 * 3 + 9) / 10`); the spec formula `ceil(M * 0.7)` is false for caps
that are not multiples of 10, since the JS `slice(-3 * 0.7)` truncates
`-2.0999999999999996` toward zero, keeping 2 records. -/
theorem history_trim_ceil_counterexample :
    (runSys 3 30 []
      (List.replicate 4 (SysOp.recv persistMsg))).history.length = 2 ∧
    (runSys 3 30 []
        (List.replicate 4 (SysOp.recv persistMsg))).history.length ≠
      (7 * 3 + 9) / 10 := by
  decide

set_option maxRecDepth 100000 in
/-- C4 (amended): with the default cap of 50 — where the JS double product
`50 * 0.7` is exactly 35, so `slice(-50 * 0.7)` keeps 35 records — once an
append makes the history exceed the cap, the trim retains exactly the 35
most recent records: the post-trim history is the 35-record suffix of the
pre-trim history; when the pre-trim serials are strictly increasing (as the
reachable-state invariant guarantees) every dropped record has a strictly
smaller serial than every retained one; and in the spec scenario, appending
51 persisted messages from a fresh channel leaves 35 records holding
serials 17 through 51. -/
theorem history_trim_cap50 :
    (∀ st : SysState, st.maxHistory = 50 → 50 < st.history.length →
      (enforceCap st).history = st.history.drop (st.history.length - 35) ∧
      (enforceCap st).history.length = 35) ∧
    (∀ st : SysState, st.maxHistory = 50 → 50 < st.history.length →
      List.Chain' (· < ·) (st.history.map (fun r => r.serial.getD 0)) →
      ∀ x ∈ st.history.take (st.history.length - 35),
        ∀ y ∈ (enforceCap st).history,
          x.serial.getD 0 < y.serial.getD 0) ∧
    ((runSys 50 30 []
        (List.replicate 51 (SysOp.recv persistMsg))).history.map
          (fun r => r.serial) = (List.range' 17 35).map some ∧
      (runSys 50 30 []
        (List.replicate 51 (SysOp.recv persistMsg))).history.length = 35) := by
  have hmain : ∀ st : SysState, st.maxHistory = 50 → 50 < st.history.length →
      (enforceCap st).history = st.history.drop (st.history.length - 35) ∧
      (enforceCap st).history.length = 35 := by
    intro st hcap hlen
    have hkeep : keepCount st.maxHistory = 35 := by
      rw [hcap]
      decide
    have hcond : st.history.length > st.maxHistory := by omega
    rw [enforceCap, if_pos hcond, hkeep]
    refine ⟨rfl, ?_⟩
    rw [List.length_drop]
    omega
  refine ⟨hmain, ?_, ?_⟩
  · intro st hcap hlen hchain x hx y hy
    rw [(hmain st hcap hlen).1] at hy
    have hpw : List.Pairwise (fun a b => a.serial.getD 0 < b.serial.getD 0)
        st.history := by
      rw [← List.pairwise_map]
      exact List.chain'_iff_pairwise.1 hchain
    have hsplit := hpw
    rw [← List.take_append_drop (st.history.length - 35) st.history,
      List.pairwise_append] at hsplit
    exact hsplit.2.2 x hx y hy
  · constructor
    · decide
    · decide

/-- Witness for the amended C4: a cap-50 state holding 51 records is
trimmed to its 35-record suffix. -/
theorem history_trim_cap50_witness :
    (enforceCap { initSys 50 30 [] with
      history := List.replicate 51 ({} : Record) }).history =
        ({ initSys 50 30 [] with
          history := List.replicate 51 ({} : Record) } : SysState).history.drop
          (({ initSys 50 30 [] with
            history := List.replicate 51 ({} : Record) } :
              SysState).history.length - 35) ∧
    (enforceCap { initSys 50 30 [] with
      history := List.replicate 51 ({} : Record) }).history.length = 35 :=
  history_trim_cap50.1
    { initSys 50 30 [] with history := List.replicate 51 ({} : Record) }
    rfl (by decide)

/-! ## C5 development: identity conflicts escape the Channel uncaught -/

theorem getUser_after_createUser {us us2 : Users} {p : ChatUser}
    (hc : createUser us p = .ok us2) :
    getUser us2 (.bySocket p.socketId) = some p := by
  unfold createUser at hc
  split at hc
  · simp at hc
  split at hc
  · simp at hc
  split at hc
  · simp at hc
  injection hc with hc
  subst hc
  rw [getUser]
  exact mapGet_mapSet_self ..

/-- C5 counterexample: connection 1 sends an identify frame reusing the
session token of the registered Alice while proposing the free name `Bob`;
`createUser` throws on the session index, the error escapes the Channel's
message processing (the second component of `receive` is the error — it is
not recovered inside the Channel), and the frame produces no reply and no
broadcast at all: the relay catch only logs. -/
theorem identity_conflict_not_recovered :
    (receive stC5 msgC5).2.isSome = true ∧
    (handleFrame stC5 1 frameC5).bcast = stC5.bcast ∧
    (handleFrame stC5 1 frameC5).sent = stC5.sent := by
  decide

/-- C5 (amended): an error raised while the identify stage runs — in
particular a session or socket identity conflict thrown by `createUser` —
is not recovered inside the Channel: `receive` returns the error to its
caller, with the registry, history, serial log, broadcast log and send log
unchanged (so no reply is sent to the offending client), and with the
listening approval granted at the start of the stage already in effect; an
identify frame reaches this stage unchanged through the dispatch, and the
relay frame handler catches whatever escapes `receive`, keeping the
mutated state and dropping the frame. -/
theorem identify_error_escapes_channel :
    (∀ st : SysState, ∀ m : Msg, m.request = some "identify" →
      m.event = some "transmit" →
      receive st m =
        identifyStage st { m with sender := some (m.sender.getD (-1)) }) ∧
    (∀ st : SysState, ∀ m : Msg, (identifyStage st m).2.isSome = true →
      (identifyStage st m).1.users = st.users ∧
      (identifyStage st m).1.history = st.history ∧
      (identifyStage st m).1.serialLog = st.serialLog ∧
      (identifyStage st m).1.bcast = st.bcast ∧
      (identifyStage st m).1.sent = st.sent ∧
      (identifyStage st m).1.conns =
        approveConns st.conns (m.sender.getD (-1))) ∧
    (∀ st : SysState, ∀ id : Int, ∀ kvs : List (String × Json),
      containsForbiddenFields (.obj kvs) 0 = false →
      handleFrame st id (.obj kvs) =
        (receive st
          { jsonToMsg (.obj kvs) with
            sender := some id,
            event := some "transmit" }).1) := by
  refine ⟨?_, ?_, ?_⟩
  · intro st m hreq hev
    simp only [receive]
    rw [if_neg (by simp [hev]), if_neg (by simp [hev]),
      if_neg (by simp [hreq]), if_pos (by simp [hreq])]
  · intro st m herr
    rcases hn : m.name with _ | n0
    · simp [identifyStage, hn]
    · simp only [identifyStage, hn] at herr ⊢
      by_cases hb : ((getUser st.users
          (.byName (truncName st.maxNameLength n0))).isSome ||
          decide (truncName st.maxNameLength n0 = "")) = true
      · rw [if_pos hb] at herr ⊢
        rcases hcu : createUser st.users
            { socketId := m.sender.getD (-1), sessionId := m.sid,
              name := generateRandomName st.users (nextDraw st.rands).1
                (nextDraw st.rands).2 } with e | us2
        · exact ⟨rfl, rfl, rfl, rfl, rfl, rfl⟩
        · rw [hcu] at herr
          have hg2 : getUser us2 (.bySocket (m.sender.getD (-1))) =
              some ⟨m.sender.getD (-1), m.sid,
                generateRandomName st.users (nextDraw st.rands).1
                  (nextDraw st.rands).2⟩ := getUser_after_createUser hcu
          simp only [identifyFinish, hg2] at herr
          exact Bool.noConfusion herr
      · rw [if_neg hb] at herr ⊢
        rcases hcu : createUser st.users
            { socketId := m.sender.getD (-1), sessionId := m.sid,
              name := truncName st.maxNameLength n0 } with e | us2
        · exact ⟨rfl, rfl, rfl, rfl, rfl, rfl⟩
        · rw [hcu] at herr
          have hg2 : getUser us2 (.bySocket (m.sender.getD (-1))) =
              some ⟨m.sender.getD (-1), m.sid, truncName st.maxNameLength n0⟩ :=
            getUser_after_createUser hcu
          simp only [identifyFinish, hg2] at herr
          exact Bool.noConfusion herr
  · intro st id kvs hclean
    simp [handleFrame, framePrep, Json.isObjLike, hclean]

/-- Witness for the amended C5: the conflicting identify of the scenario
leaves registry and logs unchanged while the error escapes. -/
theorem identify_error_escapes_channel_witness :
    (identifyStage stC5 msgC5).1.users = stC5.users ∧
    (identifyStage stC5 msgC5).1.history = stC5.history ∧
    (identifyStage stC5 msgC5).1.serialLog = stC5.serialLog ∧
    (identifyStage stC5 msgC5).1.bcast = stC5.bcast ∧
    (identifyStage stC5 msgC5).1.sent = stC5.sent ∧
    (identifyStage stC5 msgC5).1.conns =
      approveConns stC5.conns (msgC5.sender.getD (-1)) :=
  identify_error_escapes_channel.2.1 stC5 msgC5 (by decide)

/-! ## C6 development: the rename stage -/

theorem mapGet_mapDel_none {α β : Type} [DecidableEq α] {m : List (α × β)}
    {a : α} (h : mapGet m a = none) (k : α) : mapGet (mapDel m k) a = none := by
  induction m with
  | nil => simp [mapDel, mapGet]
  | cons p rest ih =>
    obtain ⟨k0, v0⟩ := p
    by_cases hk : k = k0
    · rw [mapDel, if_pos hk]
      by_cases ha : a = k0
      · subst ha
        rw [mapGet, if_pos rfl] at h
        cases h
      · rw [mapGet, if_neg ha] at h
        exact h
    · rw [mapDel, if_neg hk]
      by_cases ha : a = k0
      · subst ha
        rw [mapGet, if_pos rfl] at h
        cases h
      · rw [mapGet, if_neg ha] at h ⊢
        exact ih h

theorem mapSet_self_mem {α β : Type} [DecidableEq α]
    (m : List (α × β)) (k : α) (v : β) : (k, v) ∈ mapSet m k v := by
  induction m with
  | nil => simp [mapSet]
  | cons p rest ih =>
    obtain ⟨k0, v0⟩ := p
    by_cases hk : k = k0
    · subst hk
      simp [mapSet]
    · rw [mapSet, if_neg hk]
      exact List.mem_cons_of_mem _ ih

/-- The registry outcome of an approved rename: `updateUser` succeeds, the
caller keeps its socket and session but carries the new name, and the new
record is stored in the session index (hence appears in the user list). -/
theorem updateUser_rename_ok {us : Users} {sndr : Int} {cr : ChatUser}
    {t : String} (hwf : UsersWF us)
    (hcr : getUser us (.bySocket sndr) = some cr)
    (hfree : getUser us (.byName t) = none) :
    (updateUser us (.bySocket sndr) { name := some t }).2 = none ∧
    getUser (updateUser us (.bySocket sndr) { name := some t }).1
        (.bySocket sndr) = some ⟨cr.socketId, cr.sessionId, t⟩ ∧
    ∃ p ∈ (updateUser us (.bySocket sndr) { name := some t }).1.sessions,
      p.2.name = t := by
  obtain ⟨hA, hn1, hn2, hn3⟩ := hwf
  obtain ⟨g1, g2, g3⟩ := getUser_resolves hA hcr
  have hsock : sndr = cr.socketId := by
    rw [getUser] at hcr
    exact (hA.2.2 _ _ hcr).1
  have hdel : deleteUser us (.byName cr.name) =
      (true, { lowerCaseNames := mapDel us.lowerCaseNames cr.lowerCaseName,
               sessions := mapDel us.sessions cr.sessionId,
               sockets := mapDel us.sockets cr.socketId }) := by
    rw [deleteUser]
    have hgn : getUser us (.byName cr.name) = some cr := g1
    rw [hgn]
  have hfree2 : mapGet us.lowerCaseNames (jsLower t) = none := hfree
  have hc1 : mapGet (mapDel us.lowerCaseNames cr.lowerCaseName)
      (jsLower t) = none := mapGet_mapDel_none hfree2 _
  have hc2 : mapGet (mapDel us.sessions cr.sessionId) cr.sessionId = none :=
    mapGet_mapDel_self hn2 _
  have hc3 : mapGet (mapDel us.sockets cr.socketId) cr.socketId = none :=
    mapGet_mapDel_self hn3 _
  have hcreate : createUser
      { lowerCaseNames := mapDel us.lowerCaseNames cr.lowerCaseName,
        sessions := mapDel us.sessions cr.sessionId,
        sockets := mapDel us.sockets cr.socketId }
      (⟨cr.socketId, cr.sessionId, t⟩ : ChatUser) =
    .ok { lowerCaseNames := mapSet (mapDel us.lowerCaseNames
            cr.lowerCaseName) (jsLower t) ⟨cr.socketId, cr.sessionId, t⟩,
          sessions := mapSet (mapDel us.sessions cr.sessionId)
            cr.sessionId ⟨cr.socketId, cr.sessionId, t⟩,
          sockets := mapSet (mapDel us.sockets cr.socketId)
            cr.socketId ⟨cr.socketId, cr.sessionId, t⟩ } := by
    rw [createUser]
    rw [show mapGet (mapDel us.lowerCaseNames cr.lowerCaseName)
        (jsLower (⟨cr.socketId, cr.sessionId, t⟩ : ChatUser).name) = none
      from hc1]
    rw [show mapGet (mapDel us.sessions cr.sessionId)
        (⟨cr.socketId, cr.sessionId, t⟩ : ChatUser).sessionId = none
      from hc2]
    rw [show mapGet (mapDel us.sockets cr.socketId)
        (⟨cr.socketId, cr.sessionId, t⟩ : ChatUser).socketId = none
      from hc3]
    rfl
  have hupd : updateUser us (.bySocket sndr) { name := some t } =
      ({ lowerCaseNames := mapSet (mapDel us.lowerCaseNames
            cr.lowerCaseName) (jsLower t) ⟨cr.socketId, cr.sessionId, t⟩,
         sessions := mapSet (mapDel us.sessions cr.sessionId)
           cr.sessionId ⟨cr.socketId, cr.sessionId, t⟩,
         sockets := mapSet (mapDel us.sockets cr.socketId)
           cr.socketId ⟨cr.socketId, cr.sessionId, t⟩ }, none) := by
    simp only [updateUser, hcr, hdel]
    have happ : applyPatch cr { name := some t } =
        (⟨cr.socketId, cr.sessionId, t⟩ : ChatUser) := rfl
    rw [happ, hcreate]
  refine ⟨by rw [hupd], ?_, ?_⟩
  · rw [hupd, getUser, hsock]
    exact mapGet_mapSet_self ..
  · rw [hupd]
    exact ⟨(cr.sessionId, ⟨cr.socketId, cr.sessionId, t⟩),
      mapSet_self_mem .., rfl⟩

theorem receiveSimple_users (st : SysState) (m : Msg) :
    (receiveSimple st m).users = st.users := by
  simp only [receiveSimple, tailStages]
  split
  · rw [enforceCap]
    split <;> rfl
  · rfl

theorem receiveSimple_bcast (st : SysState) (m : Msg) :
    ∃ m3 : Msg, (receiveSimple st m).bcast = st.bcast ++ [m3] ∧
      m3.text = m.text ∧ m3.setKey = m.setKey ∧ m3.value = m.value ∧
      (m.remember = some true → m3.serial.isSome = true) := by
  simp only [receiveSimple, tailStages]
  by_cases hr : m.remember = some true
  · rw [if_pos hr]
    refine ⟨{ m with
        time := some (nextStamp st.lastTimestamp st.clock),
        sender := none, remember := none,
        serial := some (st.lastSerial + 1) }, ?_, rfl, rfl, rfl, fun _ => rfl⟩
    rw [enforceCap]
    split <;> rfl
  · rw [if_neg hr]
    exact ⟨{ m with
        time := some (nextStamp st.lastTimestamp st.clock),
        sender := none }, rfl, rfl, rfl, rfl, fun hx => absurd hx hr⟩

theorem receiveSimple_lastTimestamp (st : SysState) (m : Msg) :
    (receiveSimple st m).lastTimestamp = nextStamp st.lastTimestamp st.clock := by
  simp only [receiveSimple, tailStages]
  split
  · rw [enforceCap]
    split <;> rfl
  · rfl

theorem receiveSimple_clock (st : SysState) (m : Msg) :
    (receiveSimple st m).clock = st.clock := by
  simp only [receiveSimple, tailStages]
  split
  · rw [enforceCap]
    split <;> rfl
  · rfl

/-- A message that does not ask to be remembered leaves the registry and
the history alone and is broadcast exactly once, timestamped and with the
sender tag stripped. -/
theorem receiveSimple_unremembered (st : SysState) (m : Msg)
    (h : ¬ m.remember = some true) :
    (receiveSimple st m).users = st.users ∧
    (receiveSimple st m).history = st.history ∧
    (receiveSimple st m).bcast = st.bcast ++
      [{ m with
          time := some (nextStamp st.lastTimestamp st.clock),
          sender := none }] := by
  simp only [receiveSimple, tailStages]
  rw [if_neg h]
  exact ⟨rfl, rfl, rfl⟩

theorem broadcastUserList_users (st : SysState) :
    (broadcastUserList st).users = st.users :=
  receiveSimple_users st
    { setKey := some "users",
      value := some (.strList (st.users.sessions.map (fun p => p.2.name))) }

/-- `broadcastUserList` keeps the registry and emits one `_set users`
message carrying the session-ordered name list. -/
theorem broadcastUserList_spec (st : SysState) :
    (broadcastUserList st).users = st.users ∧
    ∃ b : Msg, (broadcastUserList st).bcast = st.bcast ++ [b] ∧
      b.setKey = some "users" ∧
      b.value = some (.strList (st.users.sessions.map (fun p => p.2.name))) := by
  refine ⟨broadcastUserList_users st, ?_⟩
  obtain ⟨b, he, _, hk, hv, _⟩ := receiveSimple_bcast st
    { setKey := some "users",
      value := some (.strList (st.users.sessions.map (fun p => p.2.name))) }
  exact ⟨b, he, hk, hv⟩

theorem broadcastUserList_bcast_mono {st : SysState} {b : Msg}
    (h : b ∈ st.bcast) : b ∈ (broadcastUserList st).bcast := by
  obtain ⟨-, b3, he, -, -⟩ := broadcastUserList_spec st
  rw [he]
  exact List.mem_append_left _ h

/-- If some registered user carries name `t`, the user-list broadcast
contains a `_set users` message whose name list contains `t`. -/
theorem broadcastUserList_userlist {st : SysState} {t : String}
    (hp : ∃ p ∈ st.users.sessions, p.2.name = t) :
    ∃ b ∈ (broadcastUserList st).bcast, b.setKey = some "users" ∧
      ∃ names, b.value = some (.strList names) ∧ t ∈ names := by
  obtain ⟨-, b, he, hk, hv⟩ := broadcastUserList_spec st
  obtain ⟨p, hpm, hpn⟩ := hp
  refine ⟨b, ?_, hk, _, hv, List.mem_map.mpr ⟨p, hpm, hpn⟩⟩
  rw [he]
  exact List.mem_append_right _ (List.mem_singleton.mpr rfl)

/-- C6 counterexample: Alice (socket 0, session `s1`) asks to be renamed to
`alice`, a case variant of her own current name. No user of a *different*
session holds that name (Alice is the only registered user), so by the
claim the rename should be approved: registry updated and the change
announced. The code instead takes the same-session branch of the rename
stage -- the registry and the history are unchanged, and the only emission
is the private reply `You are already named alice.` addressed to the
caller. -/
theorem rename_case_variant_not_approved :
    (∀ p ∈ stC6.users.sessions, p.2.sessionId = aliceUser.sessionId) ∧
    getUser stC6.users (.bySocket 0) = some aliceUser ∧
    (receive stC6 msgC6).2 = none ∧
    (receive stC6 msgC6).1.users = stC6.users ∧
    (receive stC6 msgC6).1.history = stC6.history ∧
    (receive stC6 msgC6).1.bcast =
      [{ toAddr := some (.one 0),
         text := some "You are already named alice.",
         time := some 1 }] := by
  decide

/-- C6 (amended): complete case analysis of the rename stage for a rename
request from a registered user `cr` with proposed name `t0`, writing `t`
for the truncated target name. (1) If *no* user at all holds `t`
(case-insensitively) -- not merely no user of a different session -- the
rename is approved: the stage reports no error, the caller's registry
record now carries name `t` with its socket and session unchanged, the
change is announced in a history-worthy broadcast, a `_set rename` notice
is pushed, and a `_set users` list containing `t` is re-broadcast. (2) If
the name is held by a user of the caller's *own* session (in particular by
the caller itself, e.g. a case variant of its current name), the registry
and history are untouched and the caller receives only the private
`You are already named t.` reply. (3) If the name is held by a user of a
different session, the registry and history are untouched and the caller
receives a private rejection followed by a `_set name` re-assertion of its
current name. -/
theorem rename_stage_behavior (st : SysState) (m : Msg) (sndr : Int)
    (cr : ChatUser) (t0 : String)
    (hwf : UsersWF st.users)
    (hev1 : ¬ m.event = some "connect")
    (hev2 : ¬ m.event = some "disconnect")
    (hreq : m.request = some "rename")
    (hsend : m.sender = some sndr)
    (htext : m.text = some t0)
    (hcr : getUser st.users (.bySocket sndr) = some cr) :
    (getUser st.users (.byName (truncName st.maxNameLength t0)) = none →
      (receive st m).2 = none ∧
      getUser (receive st m).1.users (.bySocket sndr) =
        some ⟨cr.socketId, cr.sessionId, truncName st.maxNameLength t0⟩ ∧
      (∃ b ∈ (receive st m).1.bcast,
        b.text = some (cr.name ++ " renamed to " ++
          truncName st.maxNameLength t0) ∧ b.serial.isSome = true) ∧
      (∃ b ∈ (receive st m).1.bcast,
        b.setKey = some "rename" ∧
        b.value = some (.strList [cr.name, truncName st.maxNameLength t0])) ∧
      (∃ b ∈ (receive st m).1.bcast, b.setKey = some "users" ∧
        ∃ names, b.value = some (.strList names) ∧
          truncName st.maxNameLength t0 ∈ names)) ∧
    (∀ nameHolder : ChatUser,
      getUser st.users (.byName (truncName st.maxNameLength t0)) =
        some nameHolder →
      (nameHolder.sessionId = cr.sessionId →
        (receive st m).2 = none ∧
        (receive st m).1.users = st.users ∧
        (receive st m).1.history = st.history ∧
        (receive st m).1.bcast = st.bcast ++
          [{ toAddr := some (.one sndr),
             text := some ("You are already named " ++
               truncName st.maxNameLength t0 ++ "."),
             time := some (nextStamp st.lastTimestamp st.clock) }]) ∧
      (¬ nameHolder.sessionId = cr.sessionId →
        (receive st m).2 = none ∧
        (receive st m).1.users = st.users ∧
        (receive st m).1.history = st.history ∧
        (receive st m).1.bcast = st.bcast ++
          [{ toAddr := some (.one sndr),
             text := some ("Name already in use. (" ++
               truncName st.maxNameLength t0 ++ ")"),
             time := some (nextStamp st.lastTimestamp st.clock) },
           { toAddr := some (.one sndr),
             setKey := some "name", value := some (.str cr.name),
             time := some (nextStamp
               (nextStamp st.lastTimestamp st.clock) st.clock) }])) := by
  have hdisp : receive st m =
      renameStage st { m with sender := some sndr } := by
    simp only [receive]
    rw [if_neg hev1, if_neg hev2, if_pos hreq, hsend, Option.getD_some]
  refine ⟨fun hfree => ?_, fun nameHolder hnh => ⟨fun hsess => ?_, fun hsess => ?_⟩⟩
  · -- (1) free name: the rename is approved
    rw [hdisp]
    simp only [renameStage, htext, hfree, hcr, Option.getD_some]
    rw [receiveSimple_users, receiveSimple_users]
    obtain ⟨ho, hg, p, hpmem, hpname⟩ := updateUser_rename_ok hwf hcr hfree
    obtain ⟨b1, he1, hb1t, hb1k, hb1v, hb1s⟩ := receiveSimple_bcast st
      { text := some (cr.name ++ " renamed to " ++
          truncName st.maxNameLength t0),
        remember := some true }
    obtain ⟨b2, he2, hb2t, hb2k, hb2v, hb2s⟩ := receiveSimple_bcast
      (receiveSimple st
        { text := some (cr.name ++ " renamed to " ++
            truncName st.maxNameLength t0),
          remember := some true })
      { setKey := some "rename",
        value := some (.strList [cr.name, truncName st.maxNameLength t0]) }
    simp only [ho]
    refine ⟨by trivial, ?_, ?_, ?_, ?_⟩
    · rw [broadcastUserList_users]
      exact hg
    · refine ⟨b1, broadcastUserList_bcast_mono ?_, hb1t, hb1s rfl⟩
      show b1 ∈ (receiveSimple (receiveSimple st
        { text := some (cr.name ++ " renamed to " ++
            truncName st.maxNameLength t0),
          remember := some true })
        { setKey := some "rename",
          value := some (.strList [cr.name,
            truncName st.maxNameLength t0]) }).bcast
      rw [he2, he1]
      simp
    · refine ⟨b2, broadcastUserList_bcast_mono ?_, hb2k, hb2v⟩
      show b2 ∈ (receiveSimple (receiveSimple st
        { text := some (cr.name ++ " renamed to " ++
            truncName st.maxNameLength t0),
          remember := some true })
        { setKey := some "rename",
          value := some (.strList [cr.name,
            truncName st.maxNameLength t0]) }).bcast
      rw [he2]
      simp
    · exact broadcastUserList_userlist ⟨p, hpmem, hpname⟩
  · -- (2) held by the caller's own session: private already-named reply
    rw [hdisp]
    simp only [renameStage, htext, hnh, hcr, Option.getD_some]
    rw [if_pos hsess]
    obtain ⟨hu1, hh1, hb1⟩ := receiveSimple_unremembered st
      { toAddr := some (.one sndr),
        text := some ("You are already named " ++
          truncName st.maxNameLength t0 ++ ".") } (by simp)
    exact ⟨rfl, hu1, hh1, hb1⟩
  · -- (3) held by a different session: private rejection + name re-assert
    rw [hdisp]
    simp only [renameStage, htext, hnh, hcr, Option.getD_some]
    rw [if_neg hsess]
    obtain ⟨hu1, hh1, hb1⟩ := receiveSimple_unremembered st
      { text := some ("Name already in use. (" ++
          truncName st.maxNameLength t0 ++ ")"),
        toAddr := some (.one sndr) } (by simp)
    obtain ⟨hu2, hh2, hb2⟩ := receiveSimple_unremembered
      (receiveSimple st
        { text := some ("Name already in use. (" ++
            truncName st.maxNameLength t0 ++ ")"),
          toAddr := some (.one sndr) })
      { toAddr := some (.one sndr), setKey := some "name",
        value := some (.str cr.name) } (by simp)
    refine ⟨rfl, hu2.trans hu1, hh2.trans hh1, ?_⟩
    rw [hb2, hb1, receiveSimple_lastTimestamp, receiveSimple_clock,
      List.append_assoc]
    rfl

/-- Witness for the amended rename-stage theorem: Alice asking for the
case variant `alice` of her own name lands in the own-session branch and
draws only the private already-named reply. -/
theorem rename_stage_behavior_witness :
    (receive stC6 msgC6).2 = none ∧
    (receive stC6 msgC6).1.users = stC6.users ∧
    (receive stC6 msgC6).1.history = stC6.history ∧
    (receive stC6 msgC6).1.bcast =
      stC6.bcast ++
        [{ toAddr := some (.one 0),
           text := some "You are already named alice.",
           time := some 1 }] :=
  ((rename_stage_behavior stC6 msgC6 0 aliceUser "alice"
      (@usersWF_createUser emptyUsers usersAlice aliceUser
        usersWF_empty rfl)
      (by decide) (by decide) rfl rfl rfl (by decide)).2
    aliceUser (by decide)).1 rfl

end WsChat
